import Mathlib

/-
Verification of the x-customer-id-routing repository.

The repository has three Python source files:
  * scripts/generate_token.py   — generate_jwt: builds an HS256-signed JWT.
  * src/authorizer/handler.py   — lambda_handler / decode_jwt / deny_response:
      the Lambda authorizer that extracts a customer id from a JWT.
  * src/backend/handler.py      — lambda_handler: the backend echo service that
      derives the simulated routing descriptor from the x-customer-id header.

Python strings are embedded as `List Char`, byte strings as `List Nat`
(each element < 256).  Fallible operations return `Option`.  The Python
standard-library functions the code calls (str.split, str.replace,
dict.get, base64.urlsafe_b64encode/b64decode, json.dumps, json.loads,
hmac.new(..., sha256), utf-8 encode/decode) are given executable models
below, restricted where noted to the inputs this program can produce
(the models never succeed where CPython would fail).
-/

namespace XCid

set_option maxRecDepth 100000

/-- Shorthand turning a Lean string literal into the `List Char` representation
used for Python strings throughout this development. -/
def str (s : String) : List Char := s.data

/-! ## Python string helpers -/

/-- Model of Python `s.split(sep)` for a one-character separator: splits on
every occurrence, keeping empty pieces, and always returns at least one piece. -/
def pySplit (s : List Char) (sep : Char) : List (List Char) :=
  match s with
  | [] => [[]]
  | c :: rest =>
    let tail := pySplit rest sep
    if c = sep then [] :: tail
    else match tail with
         | [] => [[c]]
         | p :: ps => (c :: p) :: ps

/-- Fuelled worker for `pyReplace`; the fuel bounds the number of characters
consumed, so `s.length` fuel always suffices for a non-empty pattern. -/
def pyReplaceFuel : Nat → List Char → List Char → List Char → List Char
  | 0, s, _, _ => s
  | _ + 1, [], _, _ => []
  | fuel + 1, c :: rest, pat, rep =>
    if pat ≠ [] ∧ pat.isPrefixOf (c :: rest) then
      rep ++ pyReplaceFuel fuel ((c :: rest).drop pat.length) pat rep
    else
      c :: pyReplaceFuel fuel rest pat rep

/-- Model of Python `s.replace(pat, rep)` for a non-empty pattern: replaces
every non-overlapping occurrence, scanning left to right.  (The program only
ever calls `replace` with the non-empty patterns `'Bearer '` and `'bearer '`.) -/
def pyReplace (s pat rep : List Char) : List Char :=
  pyReplaceFuel s.length s pat rep

/-- Model of Python `d.get(k)` on a dict represented as an association list
whose keys are unique (first match wins). -/
def pyGet {α : Type} (d : List (List Char × α)) (k : List Char) : Option α :=
  match d with
  | [] => none
  | (k', v) :: rest => if k' = k then some v else pyGet rest k

/-! ## UTF-8 -/

/-- UTF-8 encoding of a single code point, as Python `str.encode()` produces. -/
def utf8EncodeChar (c : Char) : List Nat :=
  let n := c.toNat
  if n < 0x80 then [n]
  else if n < 0x800 then [0xC0 + n / 64, 0x80 + n % 64]
  else if n < 0x10000 then [0xE0 + n / 4096, 0x80 + n / 64 % 64, 0x80 + n % 64]
  else [0xF0 + n / 262144, 0x80 + n / 4096 % 64, 0x80 + n / 64 % 64, 0x80 + n % 64]

/-- Model of Python `s.encode()` (UTF-8 encoding of a string). -/
def utf8Encode (s : List Char) : List Nat :=
  s.flatMap utf8EncodeChar

/-- Whether a byte is a UTF-8 continuation byte `10xxxxxx`. -/
def isCont (b : Nat) : Bool := 0x80 ≤ b ∧ b < 0xC0

/-- Fuelled UTF-8 decoder; rejects overlong encodings, surrogates and
out-of-range code points exactly as Python's strict utf-8 decoder does. -/
def utf8DecodeFuel : Nat → List Nat → Option (List Char)
  | 0, l => match l with | [] => some [] | _ => none
  | _ + 1, [] => some []
  | fuel + 1, b :: rest =>
    if b < 0x80 then do
      let s ← utf8DecodeFuel fuel rest
      return Char.ofNat b :: s
    else if b < 0xC2 then none
    else if b < 0xE0 then
      match rest with
      | b1 :: rest' =>
        if isCont b1 then do
          let s ← utf8DecodeFuel fuel rest'
          return Char.ofNat ((b - 0xC0) * 64 + (b1 - 0x80)) :: s
        else none
      | _ => none
    else if b < 0xF0 then
      match rest with
      | b1 :: b2 :: rest' =>
        let n := (b - 0xE0) * 4096 + (b1 - 0x80) * 64 + (b2 - 0x80)
        if isCont b1 ∧ isCont b2 ∧ 0x800 ≤ n ∧ ¬ (0xD800 ≤ n ∧ n < 0xE000) then do
          let s ← utf8DecodeFuel fuel rest'
          return Char.ofNat n :: s
        else none
      | _ => none
    else if b < 0xF5 then
      match rest with
      | b1 :: b2 :: b3 :: rest' =>
        let n := (b - 0xF0) * 262144 + (b1 - 0x80) * 4096 + (b2 - 0x80) * 64 + (b3 - 0x80)
        if isCont b1 ∧ isCont b2 ∧ isCont b3 ∧ 0x10000 ≤ n ∧ n < 0x110000 then do
          let s ← utf8DecodeFuel fuel rest'
          return Char.ofNat n :: s
        else none
      | _ => none
    else none

/-- Model of Python `bytes.decode()` / the utf-8 decoding `json.loads` performs
on a bytes argument. -/
def utf8Decode (bs : List Nat) : Option (List Char) :=
  utf8DecodeFuel bs.length bs

/-! ## Decimal numerals -/

/-- Fuelled most-significant-digit-first decimal rendering of a natural. -/
def natToCharsFuel : Nat → Nat → List Char
  | 0, _ => []
  | fuel + 1, n =>
    if n < 10 then [Char.ofNat (48 + n)]
    else natToCharsFuel fuel (n / 10) ++ [Char.ofNat (48 + n % 10)]

/-- Decimal rendering of a natural number, as Python `str`/`json.dumps` print it. -/
def natToChars (n : Nat) : List Char := natToCharsFuel (n + 1) n

/-- Decimal rendering of an integer. -/
def intToChars (i : Int) : List Char :=
  if i < 0 then '-' :: natToChars i.natAbs else natToChars i.natAbs

/-! ## Base64url (`base64.urlsafe_b64encode` / `base64.urlsafe_b64decode`) -/

/-- The url-safe base64 alphabet, indexed by sextet value. -/
def b64Char (n : Nat) : Char :=
  if n < 26 then Char.ofNat (65 + n)
  else if n < 52 then Char.ofNat (97 + (n - 26))
  else if n < 62 then Char.ofNat (48 + (n - 52))
  else if n = 62 then '-'
  else '_'

/-- Inverse of `b64Char`: the sextet value of an alphabet character. -/
def b64CharVal (c : Char) : Option Nat :=
  let n := c.toNat
  if 65 ≤ n ∧ n ≤ 90 then some (n - 65)
  else if 97 ≤ n ∧ n ≤ 122 then some (n - 97 + 26)
  else if 48 ≤ n ∧ n ≤ 57 then some (n - 48 + 52)
  else if c = '-' then some 62
  else if c = '_' then some 63
  else none

/-- Model of Python `base64.urlsafe_b64encode(bs).rstrip(b'=')` (the program
always strips the padding straight away): 3-byte groups become 4 characters,
a final 1- or 2-byte group becomes 2 or 3 characters with no padding. -/
def b64Encode : List Nat → List Char
  | [] => []
  | [a] => [b64Char (a / 4), b64Char (a % 4 * 16)]
  | [a, b] => [b64Char (a / 4), b64Char (a % 4 * 16 + b / 16), b64Char (b % 16 * 4)]
  | a :: b :: c :: rest =>
    b64Char (a / 4) :: b64Char (a % 4 * 16 + b / 16) ::
    b64Char (b % 16 * 4 + c / 64) :: b64Char (c % 64) :: b64Encode rest

/-- Decode a list of sextet values into bytes; a leftover group of one sextet
is invalid (CPython raises "Invalid base64-encoded string" there). -/
def b64DecodeGroups : List Nat → Option (List Nat)
  | [] => some []
  | [_] => none
  | [a, b] => some [a * 4 + b / 16]
  | [a, b, c] => some [a * 4 + b / 16, b % 16 * 16 + c / 4]
  | a :: b :: c :: d :: rest => do
    let bs ← b64DecodeGroups rest
    return (a * 4 + b / 16) :: (b % 16 * 16 + c / 4) :: (c % 4 * 64 + d) :: bs

/-- Model of Python `base64.urlsafe_b64decode` on the inputs this program
feeds it: alphabet characters followed by trailing padding characters.
Trailing `'='` characters are ignored (CPython's lenient decoder accepts any
amount of trailing padding, including the four `'='` the authorizer appends
to an already-complete segment); any other non-alphabet character, or a data
length of 1 mod 4, makes the model fail, matching or under-approximating
CPython's failures. -/
def b64Decode (s : List Char) : Option (List Nat) := do
  let data := (s.reverse.dropWhile (· = '=')).reverse
  let sextets ← data.mapM b64CharVal
  b64DecodeGroups sextets

/-! ## SHA-256 and HMAC (`hashlib.sha256`, `hmac.new`) -/

/-- Truncate to an unsigned 32-bit value. -/
def u32 (n : Nat) : Nat := n % 4294967296

/-- Right rotation of a 32-bit word. -/
def rotr32 (x n : Nat) : Nat := u32 (x / 2 ^ n + x % 2 ^ n * 2 ^ (32 - n))

/-- The 64 SHA-256 round constants, written in decimal. -/
def shaK : List Nat :=
  [1116352408, 1899447441, 3049323471, 3921009573, 961987163, 1508970993,
   2453635748, 2870763221, 3624381080, 310598401, 607225278, 1426881987,
   1925078388, 2162078206, 2614888103, 3248222580, 3835390401, 4022224774,
   264347078, 604807628, 770255983, 1249150122, 1555081692, 1996064986,
   2554220882, 2821834349, 2952996808, 3210313671, 3336571891, 3584528711,
   113926993, 338241895, 666307205, 773529912, 1294757372, 1396182291,
   1695183700, 1986661051, 2177026350, 2456956037, 2730485921, 2820302411,
   3259730800, 3345764771, 3516065817, 3600352804, 4094571909, 275423344,
   430227734, 506948616, 659060556, 883997877, 958139571, 1322822218,
   1537002063, 1747873779, 1955562222, 2024104815, 2227730452, 2361852424,
   2428436474, 2756734187, 3204031479, 3329325298]

/-- Working state of the SHA-256 compression function. -/
structure ShaState where
  a : Nat
  b : Nat
  c : Nat
  d : Nat
  e : Nat
  f : Nat
  g : Nat
  h : Nat
deriving Repr, DecidableEq

/-- The SHA-256 initial hash value, written in decimal. -/
def shaInit : ShaState :=
  ⟨1779033703, 3144134277, 1013904242, 2773480762,
   1359893119, 2600822924, 528734635, 1541459225⟩

/-- Big-endian bytes-to-words conversion (4 bytes per 32-bit word). -/
def toWords : List Nat → List Nat
  | b0 :: b1 :: b2 :: b3 :: rest => (b0 * 16777216 + b1 * 65536 + b2 * 256 + b3) :: toWords rest
  | _ => []

/-- Big-endian rendering of `n` into `k` bytes. -/
def natToBytesBE (k : Nat) (n : Nat) : List Nat :=
  match k with
  | 0 => []
  | k + 1 => natToBytesBE k (n / 256) ++ [n % 256]

/-- Serialize 32-bit words to big-endian bytes. -/
def wordsToBytes (ws : List Nat) : List Nat :=
  ws.flatMap (natToBytesBE 4)

/-- Extend the 16 message-schedule words to 64, keeping the list reversed
(newest word first) while extending. -/
def shaExtend : Nat → List Nat → List Nat
  | 0, wrev => wrev
  | k + 1, wrev =>
    let w2 := wrev.getD 1 0
    let w7 := wrev.getD 6 0
    let w15 := wrev.getD 14 0
    let w16 := wrev.getD 15 0
    let s0 := (rotr32 w15 7) ^^^ (rotr32 w15 18) ^^^ (w15 / 8)
    let s1 := (rotr32 w2 17) ^^^ (rotr32 w2 19) ^^^ (w2 / 1024)
    shaExtend k (u32 (w16 + s0 + w7 + s1) :: wrev)

/-- One SHA-256 round. -/
def shaRound (st : ShaState) (kw : Nat × Nat) : ShaState :=
  let s1 := (rotr32 st.e 6) ^^^ (rotr32 st.e 11) ^^^ (rotr32 st.e 25)
  let ch := (st.e &&& st.f) ^^^ ((4294967295 - st.e) &&& st.g)
  let t1 := u32 (st.h + s1 + ch + kw.1 + kw.2)
  let s0 := (rotr32 st.a 2) ^^^ (rotr32 st.a 13) ^^^ (rotr32 st.a 22)
  let mj := (st.a &&& st.b) ^^^ (st.a &&& st.c) ^^^ (st.b &&& st.c)
  let t2 := u32 (s0 + mj)
  ⟨u32 (t1 + t2), st.a, st.b, st.c, u32 (st.d + t1), st.e, st.f, st.g⟩

/-- Compress one 64-byte block into the running hash state. -/
def shaCompress (st : ShaState) (block : List Nat) : ShaState :=
  let w := (shaExtend 48 (toWords block).reverse).reverse
  let r := (shaK.zip w).foldl shaRound st
  ⟨u32 (st.a + r.a), u32 (st.b + r.b), u32 (st.c + r.c), u32 (st.d + r.d),
   u32 (st.e + r.e), u32 (st.f + r.f), u32 (st.g + r.g), u32 (st.h + r.h)⟩

/-- SHA-256 padding: append `0x80`, zero bytes, then the 64-bit bit length. -/
def shaPad (msg : List Nat) : List Nat :=
  let zeros := (56 + 64 - (msg.length + 1) % 64) % 64
  msg ++ 0x80 :: List.replicate zeros 0 ++ natToBytesBE 8 (msg.length * 8)

/-- Split a byte list into 64-byte blocks (fuelled, so it computes by `decide`). -/
def blocks64Fuel : Nat → List Nat → List (List Nat)
  | 0, _ => []
  | _ + 1, [] => []
  | fuel + 1, l => l.take 64 :: blocks64Fuel fuel (l.drop 64)

/-- Model of `hashlib.sha256(msg).digest()`: the 32-byte SHA-256 digest. -/
def sha256 (msg : List Nat) : List Nat :=
  let padded := shaPad msg
  let final := (blocks64Fuel padded.length padded).foldl shaCompress shaInit
  wordsToBytes [final.a, final.b, final.c, final.d, final.e, final.f, final.g, final.h]

/-- Model of `hmac.new(key, msg, hashlib.sha256).digest()`. -/
def hmacSha256 (key msg : List Nat) : List Nat :=
  let key0 := if 64 < key.length then sha256 key else key
  let keyPadded := key0 ++ List.replicate (64 - key0.length) 0
  let ipad := keyPadded.map (fun b => b ^^^ 0x36)
  let opad := keyPadded.map (fun b => b ^^^ 0x5c)
  sha256 (opad ++ sha256 (ipad ++ msg))

/-! ## JSON values (`json.dumps` / `json.loads`)

The program only ever produces and consumes flat JSON objects whose values
are strings and integers, so the model restricts JSON to that fragment
(plus bare string/integer scalars at top level, which `json.loads` can also
return).  Where CPython's `json` accepts more (floats, booleans, null,
arrays, nested objects, `\uXXXX` escapes), the model simply fails, i.e. it
never succeeds on an input CPython would reject or read differently. -/

/-- A scalar JSON value: a string or an integer. -/
inductive JVal where
  | jstr : List Char → JVal
  | jint : Int → JVal
deriving DecidableEq, Repr

/-- A claim set / parsed JSON object: an ordered association list, as a
Python dict preserves insertion order. -/
abbrev ClaimSet : Type := List (List Char × JVal)

/-- A top-level JSON document: an object or a bare scalar. -/
inductive Json where
  | jv : JVal → Json
  | jobj : ClaimSet → Json
deriving DecidableEq, Repr

/-- Lowercase hexadecimal digit. -/
def hexChar (n : Nat) : Char :=
  if n < 10 then Char.ofNat (48 + n) else Char.ofNat (97 + n - 10)

/-- A `\uXXXX` escape for a 16-bit value, as `json.dumps` emits. -/
def uEscape (n : Nat) : List Char :=
  ['\\', 'u', hexChar (n / 4096 % 16), hexChar (n / 256 % 16), hexChar (n / 16 % 16), hexChar (n % 16)]

/-- Escaping of one character inside a JSON string, following CPython's
`json.encoder` with the default `ensure_ascii=True`. -/
def jsonEscapeChar (c : Char) : List Char :=
  let n := c.toNat
  if c = '"' then ['\\', '"']
  else if c = '\\' then ['\\', '\\']
  else if n = 8 then ['\\', 'b']
  else if n = 9 then ['\\', 't']
  else if n = 10 then ['\\', 'n']
  else if n = 12 then ['\\', 'f']
  else if n = 13 then ['\\', 'r']
  else if n < 0x20 then uEscape n
  else if n ≤ 0x7e then [c]
  else if n < 0x10000 then uEscape n
  else uEscape (0xD800 + (n - 0x10000) / 1024) ++ uEscape (0xDC00 + (n - 0x10000) % 1024)

/-- Serialize a JSON string with surrounding quotes. -/
def dumpStr (s : List Char) : List Char :=
  '"' :: s.flatMap jsonEscapeChar ++ ['"']

/-- Serialize a scalar JSON value. -/
def dumpVal : JVal → List Char
  | JVal.jstr s => dumpStr s
  | JVal.jint n => intToChars n

/-- Join with the default `json.dumps` item separator `", "`. -/
def joinComma : List (List Char) → List Char
  | [] => []
  | [x] => x
  | x :: y :: rest => x ++ ',' :: ' ' :: joinComma (y :: rest)

/-- Model of `json.dumps` on a dict of scalars, with CPython's default
separators `", "` and `": "`. -/
def jsonDumps (m : ClaimSet) : List Char :=
  '\x7b' :: joinComma (m.map (fun kv => dumpStr kv.1 ++ ':' :: ' ' :: dumpVal kv.2)) ++ ['\x7d']

/-- JSON whitespace skipping. -/
def skipWs (s : List Char) : List Char :=
  s.dropWhile (fun c => c = ' ' ∨ c = '\t' ∨ c = '\n' ∨ c = '\r')

/-- The single-character JSON escapes; `\uXXXX` escapes make the model
fail (stricter than CPython, which the program never relies on). -/
def parseEscape (e : Char) : Option Char :=
  if e = '"' then some '"'
  else if e = '\\' then some '\\'
  else if e = '/' then some '/'
  else if e = 'b' then some (Char.ofNat 8)
  else if e = 't' then some (Char.ofNat 9)
  else if e = 'n' then some (Char.ofNat 10)
  else if e = 'f' then some (Char.ofNat 12)
  else if e = 'r' then some (Char.ofNat 13)
  else none

/-- Fuelled worker parsing the body of a JSON string after the opening
quote, returning the string and the rest of the input; a raw control
character or an unknown escape fails. -/
def parseStringFuel : Nat → List Char → Option (List Char × List Char)
  | 0, _ => none
  | fuel + 1, s =>
    if s = [] then none
    else
      let c := s.headD ' '
      let rest := s.drop 1
      if c = '"' then some ([], rest)
      else if c = '\\' then
        if rest = [] then none
        else do
          let d ← parseEscape (rest.headD ' ')
          let (s2, r) ← parseStringFuel fuel (rest.drop 1)
          return (d :: s2, r)
      else if c.toNat < 0x20 then none
      else do
        let (s2, r) ← parseStringFuel fuel rest
        return (c :: s2, r)

/-- Parse the body of a JSON string after the opening quote. -/
def parseStringBody (s : List Char) : Option (List Char × List Char) :=
  parseStringFuel s.length s

/-- Whether a character is a decimal digit. -/
def isDigit (c : Char) : Bool := 48 ≤ c.toNat ∧ c.toNat ≤ 57

/-- Numeric value of a digit string. -/
def digitsVal (ds : List Char) : Nat :=
  ds.foldl (fun acc c => acc * 10 + (c.toNat - 48)) 0

/-- Parse an unsigned JSON integer: one or more digits, no leading zero
(except `0` itself), not followed by a fraction or exponent (floats make the
model fail; the program never relies on them). -/
def parseNatNum (s : List Char) : Option (Nat × List Char) :=
  let ds := s.takeWhile isDigit
  let rest := s.dropWhile isDigit
  if ds = [] then none
  else if 1 < ds.length ∧ ds.headD '0' = '0' then none
  else if rest.headD 'x' = '.' ∨ rest.headD 'x' = 'e' ∨ rest.headD 'x' = 'E' then none
  else some (digitsVal ds, rest)

/-- Parse a JSON integer with optional leading minus. -/
def parseNumber (s : List Char) : Option (Int × List Char) :=
  if s.headD ' ' = '-' then do
    let (n, r) ← parseNatNum (s.drop 1)
    return (-(n : Int), r)
  else do
    let (n, r) ← parseNatNum s
    return ((n : Int), r)

/-- Parse a scalar JSON value: a string or an integer. -/
def parseScalar (s : List Char) : Option (JVal × List Char) :=
  if s.headD ' ' = '"' then do
    let (t, r) ← parseStringBody (s.drop 1)
    return (JVal.jstr t, r)
  else do
    let (n, r) ← parseNumber s
    return (JVal.jint n, r)

/-- Insert a key/value pair as Python dict construction does on duplicate
keys: the first occurrence fixes the position, the last one the value. -/
def insertUpdate : ClaimSet → List Char → JVal → ClaimSet
  | [], k, v => [(k, v)]
  | (k', v') :: rest, k, v =>
    if k' = k then (k', v) :: rest else (k', v') :: insertUpdate rest k v

/-- Parse the members of a JSON object, positioned at the start of a key
(whitespace already skipped); fuelled to make the recursion structural. -/
def parseMembersFuel : Nat → ClaimSet → List Char → Option (ClaimSet × List Char)
  | 0, _, _ => none
  | fuel + 1, acc, s =>
    if s.headD ' ' = '"' then do
      let (k, r1) ← parseStringBody (s.drop 1)
      let r2 := skipWs r1
      if r2.headD ' ' = ':' then do
        let (v, r4) ← parseScalar (skipWs (r2.drop 1))
        let acc' := insertUpdate acc k v
        let r5 := skipWs r4
        if r5.headD ' ' = ',' then parseMembersFuel fuel acc' (skipWs (r5.drop 1))
        else if r5.headD ' ' = '\x7d' then some (acc', r5.drop 1)
        else none
      else none
    else none

/-- Model of `json.loads` on the JSON fragment described above: a flat
object of string/integer values, or a bare string/integer.  The whole input
must be consumed apart from trailing whitespace, as in CPython. -/
def parseJson (s : List Char) : Option Json :=
  let t := skipWs s
  if t.headD ' ' = '\x7b' then
    let r := skipWs (t.drop 1)
    if r.headD ' ' = '\x7d' then
      if skipWs (r.drop 1) = [] then some (Json.jobj []) else none
    else do
      let (m, r2) ← parseMembersFuel s.length [] r
      if skipWs r2 = [] then return Json.jobj m else none
  else do
    let (v, r) ← parseScalar t
    if skipWs r = [] then return Json.jv v else none

/-- A printable ASCII character needing no JSON escaping; strings of such
characters dump and re-parse as themselves. -/
def simpleChar (c : Char) : Bool :=
  0x20 ≤ c.toNat ∧ c.toNat ≤ 0x7e ∧ c ≠ '"' ∧ c ≠ '\\'

/-- A string of `simpleChar`s. -/
def simpleStr (s : List Char) : Bool := s.all simpleChar

/-- A claim value whose dump re-parses to itself: a simple string or any
integer. -/
def simpleVal : JVal → Bool
  | JVal.jstr s => simpleStr s
  | JVal.jint _ => true

/-- A claim set of simple keys and values. -/
def simpleClaims (m : ClaimSet) : Bool :=
  m.all (fun kv => simpleStr kv.1 && simpleVal kv.2)

/-! ## generate_token.py -/

/-- The default signing secret, the literal both source files carry. -/
def defaultSecret : List Char := str "your-jwt-secret-change-me"

/-- Model of Python `customer_name or customer_id`: the empty string and
`None` both fall through to `customer_id`. -/
def pyOrStr (a : Option (List Char)) (b : List Char) : List Char :=
  match a with
  | some s => if s = [] then b else s
  | none => b

/-- The payload dict `generate_jwt` builds, with `int(time.time())` passed
in as `now` (the only impure input of the function; the source reads the
clock once for `iat` and once for `exp`, modelled as the same instant). -/
def genPayload (customer_id : List Char) (customer_name : Option (List Char)) (now : Nat) : ClaimSet :=
  [(str "customer_id", JVal.jstr customer_id),
   (str "customer_name", JVal.jstr (pyOrStr customer_name customer_id)),
   (str "sub", JVal.jstr customer_id),
   (str "iat", JVal.jint now),
   (str "exp", JVal.jint ((now : Int) + 3600)),
   (str "iss", JVal.jstr (str "x-customer-id-demo"))]

/-- Model of `generate_jwt` from scripts/generate_token.py: serialize the
fixed header and the payload, base64url-encode both without padding, sign
`header_b64 + "." + payload_b64` with HMAC-SHA256, and join the three
segments with dots. -/
def generateJwt (customer_id : List Char) (customer_name : Option (List Char))
    (secret : List Char) (now : Nat) : List Char :=
  let header : ClaimSet := [(str "alg", JVal.jstr (str "HS256")), (str "typ", JVal.jstr (str "JWT"))]
  let header_b64 := b64Encode (utf8Encode (jsonDumps header))
  let payload_b64 := b64Encode (utf8Encode (jsonDumps (genPayload customer_id customer_name now)))
  let message := utf8Encode (header_b64 ++ '.' :: payload_b64)
  let signature := b64Encode (hmacSha256 (utf8Encode secret) message)
  header_b64 ++ '.' :: payload_b64 ++ '.' :: signature

/-! ## src/authorizer/handler.py -/

/-- Model of `decode_jwt`, additionally exposing the result of the
signature comparison the function computes and then discards.  The steps,
in source order: split on `'.'` and require exactly three parts; pad the
payload segment with `'=' * (4 - len % 4)`; base64url-decode and JSON-parse
it; recompute the expected signature over `header_b64 + "." + payload_b64`
— where `payload_b64` has already been mutated to its padded form — and
compare it to the third segment with `hmac.compare_digest`, whose result
the code ignores (`pass`).  Any raised exception (bad base64, bad JSON,
non-ASCII signature segment passed to `compare_digest`) is caught and
returns `None`.  The `JWT_SECRET` environment value is passed explicitly. -/
def decodeJwtV (jwt_secret : List Char) (token : List Char) : Option (Json × Bool) :=
  match pySplit token '.' with
  | [header_b64, payload_b64, signature_b64] =>
    let padded := payload_b64 ++ List.replicate (4 - payload_b64.length % 4) '='
    match b64Decode padded with
    | none => none
    | some payload_bytes =>
      match utf8Decode payload_bytes with
      | none => none
      | some payload_json =>
        match parseJson payload_json with
        | none => none
        | some payload =>
          let message := utf8Encode (header_b64 ++ '.' :: padded)
          let expected_signature := b64Encode (hmacSha256 (utf8Encode jwt_secret) message)
          if signature_b64.all (fun c => c.toNat < 128) then
            some (payload, signature_b64 = expected_signature)
          else none
  | _ => none

/-- The value `decode_jwt` actually returns: the decoded payload, with the
signature-comparison outcome discarded. -/
def decodeJwt (jwt_secret : List Char) (token : List Char) : Option Json :=
  (decodeJwtV jwt_secret token).map Prod.fst

/-- Python truthiness of a scalar JSON value. -/
def jvalTruthy : JVal → Bool
  | JVal.jstr s => s ≠ []
  | JVal.jint n => n ≠ 0

/-- Python truthiness of a decoded JSON document (`if not payload`). -/
def jsonTruthy : Json → Bool
  | Json.jv v => jvalTruthy v
  | Json.jobj m => m ≠ []

/-- Model of Python `a or b` over optional claim values: `None` and falsy
values fall through to the right operand. -/
def pyOrO (a b : Option JVal) : Option JVal :=
  match a with
  | some v => if jvalTruthy v then some v else b
  | none => b

/-- The context attached to an authorized decision. -/
structure AuthContext where
  customerId : JVal
  customerName : JVal
  tokenPayload : List Char
deriving DecidableEq, Repr

/-- The authorizer's result: `isAuthorized` plus, when authorized, the
context mapping. -/
structure AuthResponse where
  isAuthorized : Bool
  context : Option AuthContext
deriving DecidableEq, Repr

/-- Model of `deny_response`: `isAuthorized = False` and nothing else. -/
def denyResponse : AuthResponse := ⟨false, none⟩

/-- The or-chain `payload.get('customer_id') or payload.get('tenant_id') or
payload.get('sub')` from lambda_handler. -/
def resolvedCustomerId (payload : ClaimSet) : Option JVal :=
  pyOrO (pyOrO (pyGet payload (str "customer_id")) (pyGet payload (str "tenant_id")))
    (pyGet payload (str "sub"))

/-- The or-chain `payload.get('customer_name') or payload.get('name') or
customer_id` from lambda_handler. -/
def resolvedCustomerName (payload : ClaimSet) : Option JVal :=
  pyOrO (pyOrO (pyGet payload (str "customer_name")) (pyGet payload (str "name")))
    (resolvedCustomerId payload)

/-- Lines 44–63 of the authorizer's `lambda_handler`: resolve the customer
id and name from a decoded payload dict, deny when the id is missing or
falsy, otherwise return the authorized response whose context carries the
id, the name and `json.dumps(payload)`. -/
def resolveDecision (payload : ClaimSet) : AuthResponse :=
  match resolvedCustomerId payload with
  | none => denyResponse
  | some cid =>
    if jvalTruthy cid then
      ⟨true, some ⟨cid, (resolvedCustomerName payload).getD cid, jsonDumps payload⟩⟩
    else denyResponse

/-- Request headers: an association list with unique keys, as the event's
`headers` dict. -/
def Headers := List (List Char × List Char)

/-- Line 31 of the authorizer: the credential string `lambda_handler` passes
to `decode_jwt`, `auth_header.replace('Bearer ', '').replace('bearer ', '')`. -/
def extractedToken (auth_header : List Char) : List Char :=
  pyReplace (pyReplace auth_header (str "Bearer ") []) (str "bearer ") []

/-- Model of the authorizer's `lambda_handler`.  `event.get('headers',
{}).get('authorization', '')` is modelled by looking the key up in the
event's header map (an absent `headers` key behaves as the empty map); the
`JWT_SECRET` environment value is passed explicitly.  Every code path of
the `try` body is total here, and each `except`-reachable failure
(`payload.get` on a non-dict payload raising `AttributeError`) is mapped to
the `deny_response()` the handler returns for it. -/
def lambdaHandler (jwt_secret : List Char) (headers : Headers) : AuthResponse :=
  let auth_header := (pyGet headers (str "authorization")).getD []
  if auth_header = [] then denyResponse
  else
    let token := extractedToken auth_header
    if token = [] then denyResponse
    else
      match decodeJwt jwt_secret token with
      | none => denyResponse
      | some payload =>
        if jsonTruthy payload then
          match payload with
          | Json.jobj m => resolveDecision m
          | Json.jv _ => denyResponse
        else denyResponse

/-! ## src/backend/handler.py -/

/-- The simulated Kubernetes routing target derived from a customer id:
`f'cust-{customer_id}'` and
`f'{customer_id}-service.cust-{customer_id}.svc.cluster.local'`. -/
structure RouteInfo where
  targetNamespace : List Char
  targetService : List Char
deriving DecidableEq, Repr

/-- The two routing f-strings of the backend handler as a function of the
customer id. -/
def routeFor (customer_id : List Char) : RouteInfo :=
  ⟨str "cust-" ++ customer_id,
   customer_id ++ str "-service.cust-" ++ customer_id ++ str ".svc.cluster.local"⟩

/-- The `routing` block of the backend response body. -/
structure BackendRouting where
  customerId : List Char
  customerName : List Char
  targetNamespace : List Char
  targetService : List Char
deriving DecidableEq, Repr

/-- The `request` block of the backend response body. -/
structure BackendRequest where
  path : List Char
  method : List Char
  sourceIp : List Char
deriving DecidableEq, Repr

/-- The `headers` echo block of the backend response body. -/
structure BackendEchoHeaders where
  xCustomerId : List Char
  xCustomerName : List Char
  host : List Char
  userAgent : List Char
deriving DecidableEq, Repr

/-- The backend response body (the code serializes this structure with
`json.dumps(..., indent=2)`; the model keeps it structured). -/
structure BackendBody where
  message : List Char
  routing : BackendRouting
  request : BackendRequest
  echoHeaders : BackendEchoHeaders
  info : List Char
deriving DecidableEq, Repr

/-- The backend response headers. -/
structure BackendRespHeaders where
  contentType : List Char
  xCustomerId : List Char
  xRoutedTo : List Char
deriving DecidableEq, Repr

/-- The backend handler's return value. -/
structure BackendResponse where
  statusCode : Nat
  headers : BackendRespHeaders
  body : BackendBody
deriving DecidableEq, Repr

/-- The backend handler's input: the request headers and the
`requestContext.http` mapping (each absent dict behaves as empty). -/
structure BackendEvent where
  headers : Headers
  http : Headers

/-! ## Spec-side definitions, for refinement comparisons against the code -/

/-- Wrapper making the invocation time an explicit input of `decode_jwt`:
the source function reads no clock, so the wrapper ignores `now`.  It lets
the time-independence of decoding be stated as a theorem. -/
def decodeJwtAt (now : Nat) (jwt_secret token : List Char) : Option (Json × Bool) :=
  let _ := now
  decodeJwtV jwt_secret token

/-- ASCII lowercasing, for the case-insensitive comparison the spec describes. -/
def asciiLower (c : Char) : Char :=
  if 65 ≤ c.toNat ∧ c.toNat ≤ 90 then Char.ofNat (c.toNat + 32) else c

/-- The Bearer handling the spec claims: remove one case-insensitive
`'Bearer '` prefix and pass the remainder of the header through unchanged.
This follows the spec's words, to be compared against `extractedToken`. -/
def stripBearerSpec (auth_header : List Char) : List Char :=
  if (auth_header.take 7).map asciiLower = str "bearer " then auth_header.drop 7
  else auth_header

/-- The identifier precedence list the spec states. -/
def idKeys : List (List Char) := [str "customer_id", str "tenant_id", str "sub"]

/-- The display-name precedence list the spec states. -/
def nameKeys : List (List Char) := [str "customer_name", str "name"]

/-- The spec's resolution rule: the first key in the list whose value is a
non-empty string gives that value.  This follows the spec's words, to be
compared against the or-chains in `resolveDecision`. -/
def firstNonEmptyStr (payload : ClaimSet) : List (List Char) → Option (List Char)
  | [] => none
  | k :: ks =>
    match pyGet payload k with
    | some (JVal.jstr s) => if s = [] then firstNonEmptyStr payload ks else some s
    | _ => firstNonEmptyStr payload ks

/-- Whether the value under key `k`, if any, is a string.  The spec phrases
resolution in terms of non-empty identifier strings, so the comparison
theorem assumes the claim-relevant keys hold strings. -/
def stringValuedAt (payload : ClaimSet) (k : List Char) : Bool :=
  match pyGet payload k with
  | none => true
  | some (JVal.jstr _) => true
  | some (JVal.jint _) => false

/-- Python truthiness of an optional claim value (`None` is falsy). -/
def truthyOpt : Option JVal → Bool
  | none => false
  | some v => jvalTruthy v

/-- Model of the backend's `lambda_handler` from src/backend/handler.py. -/
def backendHandler (event : BackendEvent) : BackendResponse :=
  let customer_id := (pyGet event.headers (str "x-customer-id")).getD (str "unknown")
  let customer_name := (pyGet event.headers (str "x-customer-name")).getD (str "unknown")
  let path := (pyGet event.http (str "path")).getD (str "/")
  let method := (pyGet event.http (str "method")).getD (str "GET")
  let source_ip := (pyGet event.http (str "sourceIp")).getD (str "unknown")
  let route := routeFor customer_id
  ⟨200,
   ⟨str "application/json", customer_id, str "cust-" ++ customer_id⟩,
   ⟨str "Request successfully routed!",
    ⟨customer_id, customer_name, route.targetNamespace, route.targetService⟩,
    ⟨path, method, source_ip⟩,
    ⟨customer_id, customer_name,
     (pyGet event.headers (str "host")).getD (str "unknown"),
     (pyGet event.headers (str "user-agent")).getD (str "unknown")⟩,
    str "In production, this request would be forwarded to your K8s ingress which routes based on the X-Customer-ID header to the correct namespace."⟩⟩

/-! ## Helper lemmas -/

/-! ### Base64 round trip -/

/-- Decoding inverts encoding on single sextets. -/
theorem b64CharVal_b64Char : ∀ n, n < 64 → b64CharVal (b64Char n) = some n := by decide

/-- Alphabet characters are ASCII. -/
theorem b64Char_lt128 : ∀ n, n < 64 → (b64Char n).toNat < 128 := by decide

/-- Alphabet characters are not the dot separator. -/
theorem b64Char_ne_dot : ∀ n, n < 64 → ¬ b64Char n = '.' := by decide

/-- Alphabet characters are not the padding character. -/
theorem b64Char_ne_pad : ∀ n, n < 64 → ¬ b64Char n = '=' := by decide

/-- Every character of an encoded byte string is an alphabet character. -/
theorem b64Encode_mem (bs : List Nat) (hb : ∀ b ∈ bs, b < 256) :
    ∀ c ∈ b64Encode bs, ∃ n, n < 64 ∧ c = b64Char n := by
  induction bs using b64Encode.induct with
  | case1 => simp [b64Encode]
  | case2 a =>
    have ha : a < 256 := hb a (by simp)
    intro c hc
    simp [b64Encode] at hc
    rcases hc with h | h <;> subst h
    · exact ⟨a / 4, by omega, rfl⟩
    · exact ⟨a % 4 * 16, by omega, rfl⟩
  | case3 a b =>
    have ha : a < 256 := hb a (by simp)
    have hbb : b < 256 := hb b (by simp)
    intro c hc
    simp [b64Encode] at hc
    rcases hc with h | h | h <;> subst h
    · exact ⟨a / 4, by omega, rfl⟩
    · exact ⟨a % 4 * 16 + b / 16, by omega, rfl⟩
    · exact ⟨b % 16 * 4, by omega, rfl⟩
  | case4 a b cb rest ih =>
    have ha : a < 256 := hb a (by simp)
    have hbb : b < 256 := hb b (by simp)
    have hcb : cb < 256 := hb cb (by simp)
    intro c hc
    simp only [b64Encode, List.mem_cons] at hc
    rcases hc with h | h | h | h | h
    · exact h ▸ ⟨a / 4, by omega, rfl⟩
    · exact h ▸ ⟨a % 4 * 16 + b / 16, by omega, rfl⟩
    · exact h ▸ ⟨b % 16 * 4 + cb / 64, by omega, rfl⟩
    · exact h ▸ ⟨cb % 64, by omega, rfl⟩
    · exact ih (fun x hx => hb x (by simp [hx])) c h

/-- Decoding the sextet values of an encoded byte string recovers the bytes. -/
theorem b64_groups_enc (bs : List Nat) (hb : ∀ b ∈ bs, b < 256) :
    (do
      let sx ← (b64Encode bs).mapM b64CharVal
      b64DecodeGroups sx) = some bs := by
  induction bs using b64Encode.induct with
  | case1 => rfl
  | case2 a =>
    have ha : a < 256 := hb a (by simp)
    rw [show b64Encode [a] = [b64Char (a / 4), b64Char (a % 4 * 16)] from rfl]
    rw [List.mapM_cons, List.mapM_cons, List.mapM_nil,
      b64CharVal_b64Char _ (by omega : a / 4 < 64),
      b64CharVal_b64Char _ (by omega : a % 4 * 16 < 64)]
    show b64DecodeGroups [a / 4, a % 4 * 16] = some [a]
    simp [b64DecodeGroups]
    omega
  | case3 a b =>
    have ha : a < 256 := hb a (by simp)
    have hbb : b < 256 := hb b (by simp)
    rw [show b64Encode [a, b] =
      [b64Char (a / 4), b64Char (a % 4 * 16 + b / 16), b64Char (b % 16 * 4)] from rfl]
    rw [List.mapM_cons, List.mapM_cons, List.mapM_cons, List.mapM_nil,
      b64CharVal_b64Char _ (by omega : a / 4 < 64),
      b64CharVal_b64Char _ (by omega : a % 4 * 16 + b / 16 < 64),
      b64CharVal_b64Char _ (by omega : b % 16 * 4 < 64)]
    show b64DecodeGroups [a / 4, a % 4 * 16 + b / 16, b % 16 * 4] = some [a, b]
    simp [b64DecodeGroups]
    constructor <;> omega
  | case4 a b cb rest ih =>
    have ha : a < 256 := hb a (by simp)
    have hbb : b < 256 := hb b (by simp)
    have hcb : cb < 256 := hb cb (by simp)
    have ih' := ih (fun x hx => hb x (by simp [hx]))
    rcases hm : (b64Encode rest).mapM b64CharVal with _ | sx
    · rw [hm] at ih'
      simp at ih'
    · rw [hm] at ih'
      simp only [Option.bind_eq_bind, Option.some_bind] at ih'
      rw [show b64Encode (a :: b :: cb :: rest) =
        b64Char (a / 4) :: b64Char (a % 4 * 16 + b / 16) ::
        b64Char (b % 16 * 4 + cb / 64) :: b64Char (cb % 64) :: b64Encode rest from rfl]
      rw [List.mapM_cons, List.mapM_cons, List.mapM_cons, List.mapM_cons,
        b64CharVal_b64Char _ (by omega : a / 4 < 64),
        b64CharVal_b64Char _ (by omega : a % 4 * 16 + b / 16 < 64),
        b64CharVal_b64Char _ (by omega : b % 16 * 4 + cb / 64 < 64),
        b64CharVal_b64Char _ (by omega : cb % 64 < 64), hm]
      show b64DecodeGroups (a / 4 :: (a % 4 * 16 + b / 16) ::
        (b % 16 * 4 + cb / 64) :: cb % 64 :: sx) = some (a :: b :: cb :: rest)
      rw [show b64DecodeGroups (a / 4 :: (a % 4 * 16 + b / 16) ::
        (b % 16 * 4 + cb / 64) :: cb % 64 :: sx) = (do
          let bs2 ← b64DecodeGroups sx
          return (a / 4 * 4 + (a % 4 * 16 + b / 16) / 16) ::
            ((a % 4 * 16 + b / 16) % 16 * 16 + (b % 16 * 4 + cb / 64) / 4) ::
            ((b % 16 * 4 + cb / 64) % 4 * 64 + cb % 64) :: bs2) from rfl, ih']
      simp only [Option.bind_eq_bind, Option.some_bind, Option.some.injEq]
      have e1 : a / 4 * 4 + (a % 4 * 16 + b / 16) / 16 = a := by omega
      have e2 : (a % 4 * 16 + b / 16) % 16 * 16 + (b % 16 * 4 + cb / 64) / 4 = b := by omega
      have e3 : (b % 16 * 4 + cb / 64) % 4 * 64 + cb % 64 = cb := by omega
      rw [e1, e2, e3]
      rfl

/-- Dropping the `'='` suffix recovers a padding-free string. -/
theorem strip_pad (s : List Char) (hs : ∀ c ∈ s, ¬ c = '=') (k : Nat) :
    ((s ++ List.replicate k '=').reverse.dropWhile (fun c => c = '=')).reverse = s := by
  rw [List.reverse_append, List.reverse_replicate]
  have hrep : ∀ j, List.dropWhile (fun c => decide (c = '='))
      (List.replicate j '=' ++ s.reverse) =
      List.dropWhile (fun c => decide (c = '=')) s.reverse := by
    intro j
    induction j with
    | zero => rfl
    | succ j ihj => simp [List.replicate_succ, List.dropWhile_cons, ihj]
  have hself : List.dropWhile (fun c => decide (c = '=')) s.reverse = s.reverse := by
    cases hrev : s.reverse with
    | nil => rfl
    | cons c cs =>
      have hc : c ∈ s := by
        have : c ∈ s.reverse := by rw [hrev]; simp
        simpa using this
      simp [List.dropWhile_cons, hs c hc]
  simp only [hrep, hself, List.reverse_reverse]

/-- Base64url-decoding inverts encoding, for any amount of appended padding. -/
theorem b64Decode_encode_pad (bs : List Nat) (hb : ∀ b ∈ bs, b < 256) (k : Nat) :
    b64Decode (b64Encode bs ++ List.replicate k '=') = some bs := by
  have hne : ∀ c ∈ b64Encode bs, ¬ c = '=' := by
    intro c hc
    obtain ⟨n, hn, rfl⟩ := b64Encode_mem bs hb c hc
    exact b64Char_ne_pad n hn
  show (do
    let sx ← (((b64Encode bs ++ List.replicate k '=').reverse.dropWhile
      (fun c => c = '=')).reverse).mapM b64CharVal
    b64DecodeGroups sx) = some bs
  rw [strip_pad (b64Encode bs) hne k]
  exact b64_groups_enc bs hb

/-! ### UTF-8 round trip on ASCII -/

/-- On ASCII strings, utf-8 encoding is the code-point map. -/
theorem utf8Encode_ascii (cs : List Char) (h : ∀ c ∈ cs, c.toNat < 128) :
    utf8Encode cs = cs.map Char.toNat := by
  induction cs with
  | nil => rfl
  | cons c rest ih =>
    have hc : c.toNat < 128 := h c (by simp)
    show utf8EncodeChar c ++ utf8Encode rest = c.toNat :: rest.map Char.toNat
    rw [show utf8EncodeChar c = [c.toNat] from by simp [utf8EncodeChar, hc],
      ih (fun x hx => h x (by simp [hx]))]
    rfl

/-- The fuelled utf-8 decoder inverts the code-point map on ASCII strings. -/
theorem utf8DecodeFuel_ascii (cs : List Char) : ∀ fuel, cs.length ≤ fuel →
    (∀ c ∈ cs, c.toNat < 128) →
    utf8DecodeFuel fuel (cs.map Char.toNat) = some cs := by
  induction cs with
  | nil => intro fuel _ _; cases fuel <;> rfl
  | cons c rest ih =>
    intro fuel hf h
    cases fuel with
    | zero => simp at hf
    | succ f =>
      have hc : c.toNat < 128 := h c (by simp)
      show utf8DecodeFuel (f + 1) (c.toNat :: rest.map Char.toNat) = some (c :: rest)
      simp only [utf8DecodeFuel]
      rw [if_pos hc, ih f (by simpa using hf) (fun x hx => h x (by simp [hx]))]
      simp [Char.ofNat_toNat]

/-- Utf-8 decoding inverts encoding on ASCII strings. -/
theorem utf8Decode_encode (cs : List Char) (h : ∀ c ∈ cs, c.toNat < 128) :
    utf8Decode (utf8Encode cs) = some cs := by
  show utf8DecodeFuel (utf8Encode cs).length (utf8Encode cs) = some cs
  rw [utf8Encode_ascii cs h]
  exact utf8DecodeFuel_ascii cs _ (by simp) h

/-! ### Splitting a dotted token -/

/-- `pySplit` never returns the empty list. -/
theorem pySplit_ne_nil (s : List Char) (sep : Char) : pySplit s sep ≠ [] := by
  induction s with
  | nil => simp [pySplit]
  | cons c rest ih =>
    show (if c = sep then [] :: pySplit rest sep
      else match pySplit rest sep with
           | [] => [[c]]
           | p :: ps => (c :: p) :: ps) ≠ []
    split_ifs
    · simp
    · rcases h : pySplit rest sep with _ | ⟨p, ps⟩
      · simp
      · simp

/-- A separator-free string splits into itself. -/
theorem pySplit_no_sep (s : List Char) (sep : Char) (h : ∀ c ∈ s, ¬ c = sep) :
    pySplit s sep = [s] := by
  induction s with
  | nil => rfl
  | cons c rest ih =>
    have hc : ¬ c = sep := h c (by simp)
    show (if c = sep then [] :: pySplit rest sep
      else match pySplit rest sep with
           | [] => [[c]]
           | p :: ps => (c :: p) :: ps) = [c :: rest]
    rw [if_neg hc, ih (fun x hx => h x (by simp [hx]))]

/-- Splitting peels a separator-free first segment. -/
theorem pySplit_append (a rest : List Char) (sep : Char) (h : ∀ c ∈ a, ¬ c = sep) :
    pySplit (a ++ sep :: rest) sep = a :: pySplit rest sep := by
  induction a with
  | nil =>
    show (if sep = sep then [] :: pySplit rest sep else _) = [] :: pySplit rest sep
    rw [if_pos rfl]
  | cons c a' ih =>
    have hc : ¬ c = sep := h c (by simp)
    show (if c = sep then [] :: pySplit (a' ++ sep :: rest) sep
      else match pySplit (a' ++ sep :: rest) sep with
           | [] => [[c]]
           | p :: ps => (c :: p) :: ps) = (c :: a') :: pySplit rest sep
    rw [if_neg hc, ih (fun x hx => h x (by simp [hx]))]

/-- The fuel argument of `pyReplaceFuel` is irrelevant once it covers the
input length. -/
theorem pyReplaceFuel_congr (pat rep : List Char) :
    ∀ (f g : Nat) (s : List Char), s.length ≤ f → s.length ≤ g →
      pyReplaceFuel f s pat rep = pyReplaceFuel g s pat rep := by
  intro f
  induction f with
  | zero =>
    intro g s hf _
    have hs : s = [] := List.eq_nil_of_length_eq_zero (Nat.le_zero.mp hf)
    subst hs
    cases g <;> rfl
  | succ f ih =>
    intro g s hf hg
    cases s with
    | nil => cases g <;> rfl
    | cons c rest =>
      cases g with
      | zero => simp at hg
      | succ g' =>
        show pyReplaceFuel (f + 1) (c :: rest) pat rep = pyReplaceFuel (g' + 1) (c :: rest) pat rep
        simp only [pyReplaceFuel]
        split_ifs with h
        · have hp : 1 ≤ pat.length := by
            cases pat with
            | nil => exact absurd rfl h.1
            | cons a as => simp
          have hlen : ((c :: rest).drop pat.length).length ≤ rest.length := by
            simp [List.length_drop]
            omega
          have := ih g' ((c :: rest).drop pat.length)
            (Nat.le_trans hlen (Nat.le_of_succ_le_succ hf))
            (Nat.le_trans hlen (Nat.le_of_succ_le_succ hg))
          rw [this]
        · have := ih g' rest (Nat.le_of_succ_le_succ hf) (Nat.le_of_succ_le_succ hg)
          rw [this]

/-- Replacing a non-empty pattern in a string that starts with that pattern
replaces the head occurrence and continues on the remainder. -/
theorem pyReplace_head_cancel (pat s rep : List Char) (hp : pat ≠ []) :
    pyReplace (pat ++ s) pat rep = rep ++ pyReplace s pat rep := by
  cases hpat : pat with
  | nil => exact absurd hpat hp
  | cons a as =>
    subst hpat
    show pyReplaceFuel (a :: as ++ s).length (a :: as ++ s) (a :: as) rep = _
    have hlen : (a :: as ++ s).length = (as ++ s).length + 1 := by simp
    rw [hlen]
    show pyReplaceFuel ((as ++ s).length + 1) (a :: (as ++ s)) (a :: as) rep = _
    simp only [pyReplaceFuel]
    have hpre : (a :: as).isPrefixOf (a :: (as ++ s)) = true := by
      simp [List.isPrefixOf_iff_prefix]
    rw [if_pos ⟨by simp, hpre⟩]
    have hdrop : (a :: (as ++ s)).drop (a :: as).length = s := List.drop_left (a :: as) s
    rw [hdrop]
    congr 1
    exact pyReplaceFuel_congr (a :: as) rep _ _ s (by simp) le_rfl

/-! ### Decimal numeral round trip -/

/-- Digit characters satisfy `isDigit`. -/
theorem digitChar_isDigit : ∀ n, n < 10 → isDigit (Char.ofNat (48 + n)) = true := by decide

/-- The code point of a digit character. -/
theorem digitChar_toNat : ∀ n, n < 10 → (Char.ofNat (48 + n)).toNat = 48 + n := by decide

/-- Non-zero digits do not render as `'0'`. -/
theorem digitChar_ne_zero : ∀ n, n < 10 → 0 < n → ¬ Char.ofNat (48 + n) = '0' := by decide

/-- Digit characters are ASCII. -/
theorem digitChar_lt128 : ∀ n, n < 10 → (Char.ofNat (48 + n)).toNat < 128 := by decide

/-- `digitsVal` over an appended final digit. -/
theorem digitsVal_append (l : List Char) (d : Char) :
    digitsVal (l ++ [d]) = digitsVal l * 10 + (d.toNat - 48) := by
  unfold digitsVal
  rw [List.foldl_append]
  rfl

/-- The rendered numeral consists of ASCII digits, evaluates back to the
number, is non-empty, and has no leading zero (unless the number is 0). -/
theorem natToCharsFuel_spec : ∀ (fuel n : Nat), n < 10 ^ (fuel + 1) →
    (∀ c ∈ natToCharsFuel (fuel + 1) n, isDigit c = true ∧ c.toNat < 128) ∧
    digitsVal (natToCharsFuel (fuel + 1) n) = n ∧
    natToCharsFuel (fuel + 1) n ≠ [] ∧
    (n ≠ 0 → ¬ (natToCharsFuel (fuel + 1) n).headD '0' = '0') := by
  intro fuel
  induction fuel with
  | zero =>
    intro n hn
    have h10 : n < 10 := by simpa using hn
    rw [show natToCharsFuel 1 n = [Char.ofNat (48 + n)] from by
      simp [natToCharsFuel, h10]]
    refine ⟨?_, ?_, by simp, ?_⟩
    · intro c hc
      simp only [List.mem_singleton] at hc
      subst hc
      exact ⟨digitChar_isDigit n h10, digitChar_lt128 n h10⟩
    · show digitsVal ([] ++ [Char.ofNat (48 + n)]) = n
      rw [digitsVal_append, digitChar_toNat n h10]
      show 0 * 10 + (48 + n - 48) = n
      omega
    · intro hn0
      simp only [List.headD_cons]
      exact digitChar_ne_zero n h10 (Nat.pos_of_ne_zero hn0)
  | succ f ihf =>
    intro n hn
    by_cases h10 : n < 10
    · rw [show natToCharsFuel (f + 1 + 1) n = [Char.ofNat (48 + n)] from by
        simp [natToCharsFuel, h10]]
      refine ⟨?_, ?_, by simp, ?_⟩
      · intro c hc
        simp only [List.mem_singleton] at hc
        subst hc
        exact ⟨digitChar_isDigit n h10, digitChar_lt128 n h10⟩
      · show digitsVal ([] ++ [Char.ofNat (48 + n)]) = n
        rw [digitsVal_append, digitChar_toNat n h10]
        show 0 * 10 + (48 + n - 48) = n
        omega
      · intro hn0
        simp only [List.headD_cons]
        exact digitChar_ne_zero n h10 (Nat.pos_of_ne_zero hn0)
    · have heq : natToCharsFuel (f + 1 + 1) n =
          natToCharsFuel (f + 1) (n / 10) ++ [Char.ofNat (48 + n % 10)] := by
        simp [natToCharsFuel, h10]
      have hdiv : n / 10 < 10 ^ (f + 1) := by
        rw [Nat.div_lt_iff_lt_mul (by norm_num : 0 < 10)]
        calc n < 10 ^ (f + 1 + 1) := hn
        _ = 10 ^ (f + 1) * 10 := by ring
      obtain ⟨ihd, ihv, ihne, ihh⟩ := ihf (n / 10) hdiv
      rw [heq]
      have hm10 : n % 10 < 10 := Nat.mod_lt n (by norm_num)
      refine ⟨?_, ?_, by simp, ?_⟩
      · intro c hc
        rcases List.mem_append.mp hc with h | h
        · exact ihd c h
        · simp only [List.mem_singleton] at h
          subst h
          exact ⟨digitChar_isDigit _ hm10, digitChar_lt128 _ hm10⟩
      · rw [digitsVal_append, ihv, digitChar_toNat _ hm10]
        omega
      · intro _
        obtain ⟨c, cs, hcons⟩ := List.exists_cons_of_ne_nil ihne
        rw [hcons]
        simp only [List.cons_append, List.headD_cons]
        have hh2 := ihh (by omega : n / 10 ≠ 0)
        rw [hcons] at hh2
        simpa using hh2

/-- Specification of `natToChars`. -/
theorem natToChars_spec (n : Nat) :
    (∀ c ∈ natToChars n, isDigit c = true ∧ c.toNat < 128) ∧
    digitsVal (natToChars n) = n ∧
    natToChars n ≠ [] ∧
    (n ≠ 0 → ¬ (natToChars n).headD '0' = '0') := by
  have hb : 1 < 10 := by norm_num
  have hlt : n < 10 ^ (n + 1) :=
    lt_of_lt_of_le (Nat.lt_pow_self hb n) (Nat.pow_le_pow_right (by norm_num) (by omega))
  exact natToCharsFuel_spec n n hlt

/-- `takeWhile`/`dropWhile` split around an all-true prefix followed by a
failing head. -/
theorem takeDropWhile_split (p : Char → Bool) (l r : List Char)
    (hl : ∀ c ∈ l, p c = true) (hr : ∀ c, r.head? = some c → p c = false) :
    (l ++ r).takeWhile p = l ∧ (l ++ r).dropWhile p = r := by
  induction l with
  | nil =>
    cases r with
    | nil => exact ⟨rfl, rfl⟩
    | cons c cs =>
      have := hr c rfl
      simp [List.takeWhile_cons, List.dropWhile_cons, this]
  | cons c l' ih =>
    have hc := hl c (by simp)
    have ih' := ih (fun x hx => hl x (by simp [hx]))
    simp [List.takeWhile_cons, List.dropWhile_cons, hc, ih'.1, ih'.2]

/-- `parseNatNum` inverts `natToChars` when the remainder does not start
with a digit, a dot, or an exponent marker. -/
theorem parseNatNum_digits (n : Nat) (rest : List Char)
    (hr : ∀ c, rest.head? = some c →
      isDigit c = false ∧ ¬ c = '.' ∧ ¬ c = 'e' ∧ ¬ c = 'E') :
    parseNatNum (natToChars n ++ rest) = some (n, rest) := by
  obtain ⟨hd, hv, hne, hh⟩ := natToChars_spec n
  obtain ⟨ht, hdw⟩ := takeDropWhile_split isDigit (natToChars n) rest
    (fun c hc => (hd c hc).1) (fun c hc => (hr c hc).1)
  unfold parseNatNum
  rw [ht, hdw, if_neg hne]
  have hlead : ¬ (1 < (natToChars n).length ∧ (natToChars n).headD '0' = '0') := by
    rintro ⟨hlen, hhead⟩
    rcases Nat.eq_zero_or_pos n with h0 | hpos
    · subst h0
      have : natToChars 0 = ['0'] := by decide
      rw [this] at hlen
      simp at hlen
    · exact hh (by omega) hhead
  rw [if_neg hlead]
  cases hrr : rest with
  | nil => simp [hv]
  | cons c cs =>
    obtain ⟨_, hdot, he, hE⟩ := hr c (by rw [hrr]; rfl)
    rw [if_neg (by simp [hdot, he, hE] :
      ¬ ((c :: cs).headD 'x' = '.' ∨ (c :: cs).headD 'x' = 'e' ∨ (c :: cs).headD 'x' = 'E'))]
    simp [hv]

/-- `parseNumber` inverts `intToChars` under the same remainder condition. -/
theorem parseNumber_int (i : Int) (rest : List Char)
    (hr : ∀ c, rest.head? = some c →
      isDigit c = false ∧ ¬ c = '.' ∧ ¬ c = 'e' ∧ ¬ c = 'E') :
    parseNumber (intToChars i ++ rest) = some (i, rest) := by
  obtain ⟨hd, hv, hne, hh⟩ := natToChars_spec i.natAbs
  by_cases hneg : i < 0
  · rw [show intToChars i = '-' :: natToChars i.natAbs from by simp [intToChars, hneg]]
    unfold parseNumber
    rw [show (('-' :: natToChars i.natAbs) ++ rest).headD ' ' = '-' from rfl]
    rw [if_pos rfl]
    rw [show (('-' :: natToChars i.natAbs) ++ rest).drop 1 = natToChars i.natAbs ++ rest from rfl]
    rw [parseNatNum_digits i.natAbs rest hr]
    simp [abs_of_neg hneg]
  · rw [show intToChars i = natToChars i.natAbs from by simp [intToChars, hneg]]
    obtain ⟨c, cs, hcons⟩ := List.exists_cons_of_ne_nil hne
    have hcd : isDigit c = true := (hd c (by rw [hcons]; simp)).1
    have hcm : ¬ c = '-' := by
      intro h
      subst h
      simp [isDigit] at hcd
    unfold parseNumber
    rw [hcons]
    rw [show ((c :: cs) ++ rest).headD ' ' = c from rfl]
    rw [if_neg hcm, ← hcons]
    rw [parseNatNum_digits i.natAbs rest hr]
    simp [Int.natAbs_of_nonneg (by omega : (0 : Int) ≤ i)]

/-! ### JSON dump/parse round trip -/

/-- Simple characters need no escaping. -/
theorem simpleChar_escape (c : Char) (h : simpleChar c = true) : jsonEscapeChar c = [c] := by
  simp only [simpleChar, Bool.decide_and, Bool.and_eq_true, decide_eq_true_eq] at h
  obtain ⟨h1, h2, hq, hb⟩ := h
  simp only [jsonEscapeChar]
  rw [if_neg hq, if_neg hb, if_neg (by omega), if_neg (by omega), if_neg (by omega),
    if_neg (by omega), if_neg (by omega), if_neg (by omega), if_pos (by omega)]

/-- Escaping a simple string is the identity. -/
theorem simpleStr_escape (s : List Char) (h : simpleStr s = true) :
    s.flatMap jsonEscapeChar = s := by
  induction s with
  | nil => rfl
  | cons c cs ih =>
    simp only [simpleStr, List.all_cons, Bool.and_eq_true] at h
    show jsonEscapeChar c ++ cs.flatMap jsonEscapeChar = c :: cs
    rw [simpleChar_escape c h.1, ih h.2]
    rfl

/-- The serialized form of a simple string. -/
theorem dumpStr_simple (s : List Char) (h : simpleStr s = true) :
    dumpStr s = '"' :: (s ++ ['"']) := by
  show '"' :: s.flatMap jsonEscapeChar ++ ['"'] = _
  rw [simpleStr_escape s h]
  rfl

/-- The fuelled string parser consumes a serialized simple string up to
the closing quote, for any sufficient fuel. -/
theorem parseStringFuel_simple (s : List Char) (rest : List Char) :
    ∀ fuel, s.length + 1 ≤ fuel → simpleStr s = true →
    parseStringFuel fuel (s ++ '"' :: rest) = some (s, rest) := by
  induction s with
  | nil =>
    intro fuel hf _
    cases fuel with
    | zero => simp at hf
    | succ f =>
      show parseStringFuel (f + 1) ('"' :: rest) = some ([], rest)
      simp only [parseStringFuel]
      rw [if_neg (by simp)]
      rfl
  | cons c cs ih =>
    intro fuel hf h
    simp only [simpleStr, List.all_cons, Bool.and_eq_true] at h
    have hch := h.1
    simp only [simpleChar, Bool.decide_and, Bool.and_eq_true, decide_eq_true_eq] at hch
    obtain ⟨h1, h2, hq, hb⟩ := hch
    cases fuel with
    | zero => simp at hf
    | succ f =>
      show parseStringFuel (f + 1) (c :: (cs ++ '"' :: rest)) = some (c :: cs, rest)
      simp only [parseStringFuel]
      rw [if_neg (by simp)]
      rw [show (c :: (cs ++ '"' :: rest)).headD ' ' = c from rfl]
      rw [show (c :: (cs ++ '"' :: rest)).drop 1 = cs ++ '"' :: rest from rfl]
      rw [if_neg hq, if_neg hb, if_neg (by omega)]
      rw [ih f (by simp only [List.length_cons] at hf; omega) (by simpa [simpleStr] using h.2)]
      rfl

/-- Parsing a serialized simple string consumes it up to the closing quote. -/
theorem parseStringBody_simple (s : List Char) (h : simpleStr s = true) (rest : List Char) :
    parseStringBody (s ++ '"' :: rest) = some (s, rest) := by
  unfold parseStringBody
  exact parseStringFuel_simple s rest _ (by simp) h

/-- `skipWs` is the identity on strings whose head is not whitespace. -/
theorem skipWs_no_ws (c : Char) (rest : List Char)
    (h : ¬ (c = ' ' ∨ c = '\t' ∨ c = '\n' ∨ c = '\r')) :
    skipWs (c :: rest) = c :: rest := by
  simp only [skipWs, List.dropWhile_cons]
  rw [if_neg (by simpa using h)]

/-- `skipWs` drops a single leading blank. -/
theorem skipWs_blank (rest : List Char) : skipWs (' ' :: rest) = skipWs rest := by
  simp [skipWs, List.dropWhile_cons]

/-- Parsing a dumped scalar value consumes it, leaving the remainder. -/
theorem parseScalar_dumpVal (v : JVal) (hv : simpleVal v = true) (rest : List Char)
    (hr : ∀ c, rest.head? = some c →
      isDigit c = false ∧ ¬ c = '.' ∧ ¬ c = 'e' ∧ ¬ c = 'E') :
    parseScalar (dumpVal v ++ rest) = some (v, rest) := by
  cases v with
  | jstr s =>
    have hs : simpleStr s = true := hv
    rw [show dumpVal (JVal.jstr s) = dumpStr s from rfl, dumpStr_simple s hs]
    show parseScalar ('"' :: (s ++ ['"']) ++ rest) = some (JVal.jstr s, rest)
    rw [show ('"' :: (s ++ ['"']) ++ rest) = '"' :: (s ++ '"' :: rest) from by simp]
    unfold parseScalar
    rw [show (('"' :: (s ++ '"' :: rest)).headD ' ') = '"' from rfl, if_pos rfl]
    rw [show ('"' :: (s ++ '"' :: rest)).drop 1 = s ++ '"' :: rest from rfl]
    rw [parseStringBody_simple s hs rest]
    rfl
  | jint n =>
    rw [show dumpVal (JVal.jint n) = intToChars n from rfl]
    have hne : intToChars n ≠ [] := by
      unfold intToChars
      split_ifs
      · simp
      · exact (natToChars_spec n.natAbs).2.2.1
    obtain ⟨c, cs, hcons⟩ := List.exists_cons_of_ne_nil hne
    have hcq : ¬ c = '"' := by
      have hmem : c ∈ intToChars n := by rw [hcons]; simp
      unfold intToChars at hmem
      split_ifs at hmem with hsign
      · rcases List.mem_cons.mp hmem with h | h
        · subst h; decide
        · have := ((natToChars_spec n.natAbs).1 c h).1
          simp only [isDigit, Bool.decide_and, Bool.and_eq_true, decide_eq_true_eq] at this
          intro hcc
          subst hcc
          simp at this
      · have := ((natToChars_spec n.natAbs).1 c hmem).1
        simp only [isDigit, Bool.decide_and, Bool.and_eq_true, decide_eq_true_eq] at this
        intro hcc
        subst hcc
        simp at this
    unfold parseScalar
    rw [hcons]
    rw [show ((c :: cs) ++ rest).headD ' ' = c from rfl, if_neg hcq, ← hcons]
    rw [parseNumber_int n rest hr]
    rfl

/-- Each rendered member text is non-empty. -/
theorem memberText_ne_nil (kv : List Char × JVal) :
    dumpStr kv.1 ++ ':' :: ' ' :: dumpVal kv.2 ≠ [] := by
  show '"' :: _ ++ _ ≠ []
  simp

/-- `joinComma` of non-empty pieces is at least as long as the piece count. -/
theorem joinComma_length : ∀ ls : List (List Char), (∀ l ∈ ls, l ≠ []) →
    ls.length ≤ (joinComma ls).length := by
  intro ls
  induction ls with
  | nil => simp
  | cons x rest ih =>
    intro h
    cases rest with
    | nil =>
      have hx := h x (by simp)
      have : 1 ≤ x.length := by
        cases x with
        | nil => exact absurd rfl hx
        | cons _ _ => simp
      simpa [joinComma] using this
    | cons y r =>
      have ihr := ih (fun l hl => h l (by simp [hl]))
      have hx := h x (by simp)
      have hx1 : 1 ≤ x.length := by
        cases x with
        | nil => exact absurd rfl hx
        | cons _ _ => simp
      show (x :: y :: r).length ≤ (x ++ ',' :: ' ' :: joinComma (y :: r)).length
      simp only [List.length_cons, List.length_append]
      simp only [List.length_cons] at ihr
      omega

/-- Looking a key up past a map that does not contain it. -/
theorem pyGet_append_none {α : Type} (a b : List (List Char × α)) (k : List Char)
    (h : pyGet a k = none) : pyGet (a ++ b) k = pyGet b k := by
  induction a with
  | nil => rfl
  | cons kv r ih =>
    obtain ⟨k', v'⟩ := kv
    by_cases hk : k' = k
    · rw [show pyGet ((k', v') :: r) k = if k' = k then some v' else pyGet r k from rfl,
        if_pos hk] at h
      cases h
    · rw [show pyGet ((k', v') :: r) k = if k' = k then some v' else pyGet r k from rfl,
        if_neg hk] at h
      show (if k' = k then some v' else pyGet (r ++ b) k) = pyGet b k
      rw [if_neg hk, ih h]

/-- Inserting a fresh key appends it. -/
theorem insertUpdate_not_mem (acc : ClaimSet) (k : List Char) (v : JVal)
    (h : pyGet acc k = none) : insertUpdate acc k v = acc ++ [(k, v)] := by
  induction acc with
  | nil => rfl
  | cons kv r ih =>
    obtain ⟨k', v'⟩ := kv
    by_cases hk : k' = k
    · rw [show pyGet ((k', v') :: r) k = if k' = k then some v' else pyGet r k from rfl,
        if_pos hk] at h
      cases h
    · rw [show pyGet ((k', v') :: r) k = if k' = k then some v' else pyGet r k from rfl,
        if_neg hk] at h
      show (if k' = k then (k', v) :: r else (k', v') :: insertUpdate r k v) = _
      rw [if_neg hk, ih h]
      rfl

/-- Folding fresh distinct keys into a map appends them in order. -/
theorem foldl_insertUpdate : ∀ (ms : ClaimSet) (acc : ClaimSet),
    (∀ k ∈ ms.map Prod.fst, pyGet acc k = none) → (ms.map Prod.fst).Nodup →
    ms.foldl (fun a kv => insertUpdate a kv.1 kv.2) acc = acc ++ ms := by
  intro ms
  induction ms with
  | nil => intro acc _ _; simp
  | cons kv rest ih =>
    intro acc hfresh hnd
    obtain ⟨k, v⟩ := kv
    have hk : pyGet acc k = none :=
      hfresh k (List.mem_map_of_mem Prod.fst (List.mem_cons_self (k, v) rest))
    show rest.foldl (fun a kv => insertUpdate a kv.1 kv.2) (insertUpdate acc k v) = _
    rw [insertUpdate_not_mem acc k v hk]
    have hnd' : (rest.map Prod.fst).Nodup := by
      simp only [List.map_cons, List.nodup_cons] at hnd
      exact hnd.2
    have hkrest : k ∉ rest.map Prod.fst := by
      simp only [List.map_cons, List.nodup_cons] at hnd
      exact hnd.1
    have hfresh' : ∀ k' ∈ rest.map Prod.fst, pyGet (acc ++ [(k, v)]) k' = none := by
      intro k' hk'
      rw [pyGet_append_none acc [(k, v)] k' (hfresh k' (by simp [hk']))]
      show (if k = k' then some v else pyGet [] k') = none
      rw [if_neg (by rintro rfl; exact hkrest hk')]
      rfl
    rw [ih (acc ++ [(k, v)]) hfresh' hnd']
    simp

/-- The rendered member list always starts with a quote character. -/
theorem membersText_head (ms : ClaimSet) (hne : ms ≠ []) (suffix : List Char) :
    ∃ tail, joinComma (ms.map (fun kv => dumpStr kv.1 ++ ':' :: ' ' :: dumpVal kv.2)) ++ suffix =
      '"' :: tail := by
  cases ms with
  | nil => exact absurd rfl hne
  | cons kv r =>
    cases r with
    | nil =>
      refine ⟨kv.1.flatMap jsonEscapeChar ++ ['"'] ++ ':' :: ' ' :: dumpVal kv.2 ++ suffix, ?_⟩
      show (dumpStr kv.1 ++ ':' :: ' ' :: dumpVal kv.2) ++ suffix = _
      show ('"' :: (kv.1.flatMap jsonEscapeChar ++ ['"']) ++ ':' :: ' ' :: dumpVal kv.2) ++
        suffix = _
      simp
    | cons kv2 r2 =>
      refine ⟨kv.1.flatMap jsonEscapeChar ++ ['"'] ++ ':' :: ' ' :: dumpVal kv.2 ++
        ',' :: ' ' :: joinComma ((kv2 :: r2).map
          (fun kv => dumpStr kv.1 ++ ':' :: ' ' :: dumpVal kv.2)) ++ suffix, ?_⟩
      show ((dumpStr kv.1 ++ ':' :: ' ' :: dumpVal kv.2) ++ ',' :: ' ' ::
        joinComma ((kv2 :: r2).map (fun kv => dumpStr kv.1 ++ ':' :: ' ' :: dumpVal kv.2))) ++
        suffix = _
      show (('"' :: (kv.1.flatMap jsonEscapeChar ++ ['"']) ++ ':' :: ' ' :: dumpVal kv.2) ++
        ',' :: ' ' :: joinComma ((kv2 :: r2).map
          (fun kv => dumpStr kv.1 ++ ':' :: ' ' :: dumpVal kv.2))) ++ suffix = _
      simp

/-- The serialized form of a scalar never starts with whitespace. -/
theorem skipWs_dumpVal (v : JVal) (x : List Char) :
    skipWs (dumpVal v ++ x) = dumpVal v ++ x := by
  cases v with
  | jstr s =>
    show skipWs (('"' :: s.flatMap jsonEscapeChar ++ ['"']) ++ x) = _
    exact skipWs_no_ws '"' _ (by decide)
  | jint n =>
    show skipWs (intToChars n ++ x) = intToChars n ++ x
    by_cases hneg : n < 0
    · rw [show intToChars n = '-' :: natToChars n.natAbs from by simp [intToChars, hneg]]
      exact skipWs_no_ws '-' _ (by decide)
    · rw [show intToChars n = natToChars n.natAbs from by simp [intToChars, hneg]]
      obtain ⟨c, cs, hcons⟩ := List.exists_cons_of_ne_nil (natToChars_spec n.natAbs).2.2.1
      have hcd := ((natToChars_spec n.natAbs).1 c (by rw [hcons]; simp)).1
      simp only [isDigit, Bool.decide_and, Bool.and_eq_true, decide_eq_true_eq] at hcd
      rw [hcons]
      refine skipWs_no_ws c _ ?_
      rintro (rfl | rfl | rfl | rfl) <;> simp at hcd

/-- Parsing the rendered members of a non-empty simple claim set
accumulates them all and stops after the closing brace. -/
theorem parseMembers_dumps : ∀ (ms : ClaimSet) (acc : ClaimSet) (fuel : Nat),
    ms ≠ [] → ms.length ≤ fuel → simpleClaims ms = true →
    parseMembersFuel fuel acc
      (joinComma (ms.map (fun kv => dumpStr kv.1 ++ ':' :: ' ' :: dumpVal kv.2)) ++ ['\x7d']) =
    some (ms.foldl (fun a kv => insertUpdate a kv.1 kv.2) acc, []) := by
  intro ms
  induction ms with
  | nil => intro acc fuel hne; exact absurd rfl hne
  | cons kv ms' ih =>
    intro acc fuel _ hf hsimp
    obtain ⟨k, v⟩ := kv
    simp only [simpleClaims, List.all_cons, Bool.and_eq_true] at hsimp
    have hsk : simpleStr k = true := hsimp.1.1
    have hsv : simpleVal v = true := hsimp.1.2
    cases fuel with
    | zero => simp at hf
    | succ f =>
      cases ms' with
      | nil =>
        rw [show joinComma (((k, v) :: []).map
          (fun kv => dumpStr kv.1 ++ ':' :: ' ' :: dumpVal kv.2)) ++ ['\x7d'] =
        '"' :: (k ++ '"' :: (':' :: ' ' :: (dumpVal v ++ ['\x7d']))) from by
          simp [joinComma, dumpStr_simple k hsk]]
        simp only [parseMembersFuel]
        simp only [List.headD_cons]
        rw [if_pos trivial]
        rw [show ('"' :: (k ++ '"' :: (':' :: ' ' :: (dumpVal v ++ ['\x7d'])))).drop 1 =
          k ++ '"' :: (':' :: ' ' :: (dumpVal v ++ ['\x7d'])) from rfl]
        rw [parseStringBody_simple k hsk _]
        simp only [Option.bind_eq_bind, Option.some_bind]
        rw [skipWs_no_ws ':' _ (by decide)]
        rw [show (':' :: ' ' :: (dumpVal v ++ ['\x7d'])).headD ' ' = ':' from rfl]
        rw [if_pos rfl]
        rw [show (':' :: ' ' :: (dumpVal v ++ ['\x7d'])).drop 1 =
          ' ' :: (dumpVal v ++ ['\x7d']) from rfl]
        rw [skipWs_blank, skipWs_dumpVal]
        rw [parseScalar_dumpVal v hsv ['\x7d'] (by intro c hc; cases hc; decide)]
        simp only [Option.bind_eq_bind, Option.some_bind]
        rw [skipWs_no_ws '\x7d' _ (by decide)]
        rw [if_neg (by decide)]
        simp only [List.headD_cons]
        rw [if_pos trivial]
        rfl
      | cons kv2 ms'' =>
        rw [show joinComma (((k, v) :: kv2 :: ms'').map
          (fun kv => dumpStr kv.1 ++ ':' :: ' ' :: dumpVal kv.2)) ++ ['\x7d'] =
        '"' :: (k ++ '"' :: (':' :: ' ' :: (dumpVal v ++ ',' :: ' ' ::
          (joinComma ((kv2 :: ms'').map
            (fun kv => dumpStr kv.1 ++ ':' :: ' ' :: dumpVal kv.2)) ++ ['\x7d'])))) from by
          simp [joinComma, dumpStr_simple k hsk]]
        simp only [parseMembersFuel]
        simp only [List.headD_cons]
        rw [if_pos trivial]
        rw [show ('"' :: (k ++ '"' :: (':' :: ' ' :: (dumpVal v ++ ',' :: ' ' ::
            (joinComma ((kv2 :: ms'').map
              (fun kv => dumpStr kv.1 ++ ':' :: ' ' :: dumpVal kv.2)) ++ ['\x7d']))))).drop 1 =
          k ++ '"' :: (':' :: ' ' :: (dumpVal v ++ ',' :: ' ' ::
            (joinComma ((kv2 :: ms'').map
              (fun kv => dumpStr kv.1 ++ ':' :: ' ' :: dumpVal kv.2)) ++ ['\x7d']))) from rfl]
        rw [parseStringBody_simple k hsk _]
        simp only [Option.bind_eq_bind, Option.some_bind]
        rw [skipWs_no_ws ':' _ (by decide)]
        rw [show (':' :: ' ' :: (dumpVal v ++ ',' :: ' ' ::
            (joinComma ((kv2 :: ms'').map
              (fun kv => dumpStr kv.1 ++ ':' :: ' ' :: dumpVal kv.2)) ++
              ['\x7d']))).headD ' ' = ':' from rfl]
        rw [if_pos rfl]
        rw [show (':' :: ' ' :: (dumpVal v ++ ',' :: ' ' ::
            (joinComma ((kv2 :: ms'').map
              (fun kv => dumpStr kv.1 ++ ':' :: ' ' :: dumpVal kv.2)) ++ ['\x7d']))).drop 1 =
          ' ' :: (dumpVal v ++ ',' :: ' ' ::
            (joinComma ((kv2 :: ms'').map
              (fun kv => dumpStr kv.1 ++ ':' :: ' ' :: dumpVal kv.2)) ++ ['\x7d'])) from rfl]
        rw [skipWs_blank, skipWs_dumpVal]
        rw [parseScalar_dumpVal v hsv _ (by intro c hc; cases hc; decide)]
        simp only [Option.bind_eq_bind, Option.some_bind]
        rw [skipWs_no_ws ',' _ (by decide)]
        simp only [List.headD_cons]
        rw [if_pos trivial]
        rw [show (',' :: ' ' :: (joinComma ((kv2 :: ms'').map
            (fun kv => dumpStr kv.1 ++ ':' :: ' ' :: dumpVal kv.2)) ++ ['\x7d'])).drop 1 =
          ' ' :: (joinComma ((kv2 :: ms'').map
            (fun kv => dumpStr kv.1 ++ ':' :: ' ' :: dumpVal kv.2)) ++ ['\x7d']) from rfl]
        rw [skipWs_blank]
        obtain ⟨tail, htail⟩ := membersText_head (kv2 :: ms'') (by simp) ['\x7d']
        rw [htail, skipWs_no_ws '"' _ (by decide), ← htail]
        rw [ih (insertUpdate acc k v) f (by simp)
          (by simp only [List.length_cons] at hf ⊢; omega)
          hsimp.2]
        rfl

/-- Parsing a dumped simple claim set with distinct keys recovers it. -/
theorem parseJson_dumps (ms : ClaimSet) (hsimp : simpleClaims ms = true)
    (hkeys : (ms.map Prod.fst).Nodup) :
    parseJson (jsonDumps ms) = some (Json.jobj ms) := by
  cases ms with
  | nil => rfl
  | cons kv ms' =>
    have hjoin : ∃ tail,
        joinComma ((kv :: ms').map (fun kv => dumpStr kv.1 ++ ':' :: ' ' :: dumpVal kv.2)) ++
          ['\x7d'] = '"' :: tail :=
      membersText_head (kv :: ms') (by simp) ['\x7d']
    obtain ⟨tail, htail⟩ := hjoin
    show parseJson ('\x7b' :: (joinComma ((kv :: ms').map
      (fun kv => dumpStr kv.1 ++ ':' :: ' ' :: dumpVal kv.2)) ++ ['\x7d'])) = _
    unfold parseJson
    rw [skipWs_no_ws '\x7b' _ (by decide)]
    simp only [List.headD_cons]
    rw [if_pos trivial]
    rw [show ('\x7b' :: (joinComma ((kv :: ms').map
        (fun kv => dumpStr kv.1 ++ ':' :: ' ' :: dumpVal kv.2)) ++ ['\x7d'])).drop 1 =
      joinComma ((kv :: ms').map
        (fun kv => dumpStr kv.1 ++ ':' :: ' ' :: dumpVal kv.2)) ++ ['\x7d'] from rfl]
    rw [htail, skipWs_no_ws '"' _ (by decide)]
    simp only [List.headD_cons]
    rw [if_neg (by decide), ← htail]
    have hfuel : (kv :: ms').length ≤
        ('\x7b' :: (joinComma ((kv :: ms').map
          (fun kv => dumpStr kv.1 ++ ':' :: ' ' :: dumpVal kv.2)) ++ ['\x7d'])).length := by
      have hj := joinComma_length ((kv :: ms').map
        (fun kv => dumpStr kv.1 ++ ':' :: ' ' :: dumpVal kv.2))
        (by
          intro l hl
          obtain ⟨kv2, _, rfl⟩ := List.mem_map.mp hl
          exact memberText_ne_nil kv2)
      simp only [List.length_map, List.length_cons, List.length_nil] at hj
      simp only [List.length_cons, List.length_append, List.length_nil]
      omega
    rw [parseMembers_dumps (kv :: ms') [] _ (by simp) hfuel hsimp]
    simp only [Option.bind_eq_bind, Option.some_bind]
    rw [show skipWs [] = [] from rfl, if_pos rfl]
    rw [foldl_insertUpdate (kv :: ms') [] (fun k _ => rfl) hkeys]
    rfl

/-- Membership in a comma join comes from a piece or a separator. -/
theorem joinComma_mem : ∀ (ls : List (List Char)) (c : Char), c ∈ joinComma ls →
    (∃ l ∈ ls, c ∈ l) ∨ c = ',' ∨ c = ' ' := by
  intro ls
  induction ls with
  | nil => intro c hc; cases hc
  | cons x rest ih =>
    intro c hc
    cases rest with
    | nil =>
      exact Or.inl ⟨x, by simp, hc⟩
    | cons y r =>
      rcases List.mem_append.mp hc with h | h
      · exact Or.inl ⟨x, by simp, h⟩
      · rcases List.mem_cons.mp h with h2 | h2
        · exact Or.inr (Or.inl h2)
        · rcases List.mem_cons.mp h2 with h3 | h3
          · exact Or.inr (Or.inr h3)
          · rcases ih c h3 with ⟨l, hl, hcl⟩ | h4
            · exact Or.inl ⟨l, by simp [hl], hcl⟩
            · exact Or.inr h4

/-- Simple characters are ASCII. -/
theorem simpleChar_ascii (c : Char) (h : simpleChar c = true) : c.toNat < 128 := by
  simp only [simpleChar, Bool.decide_and, Bool.and_eq_true, decide_eq_true_eq] at h
  omega

/-- The serialized form of a simple string is ASCII. -/
theorem dumpStr_ascii (s : List Char) (hs : simpleStr s = true) :
    ∀ c ∈ dumpStr s, c.toNat < 128 := by
  rw [dumpStr_simple s hs]
  intro c hc
  rcases List.mem_cons.mp hc with rfl | h
  · decide
  · rcases List.mem_append.mp h with h2 | h2
    · exact simpleChar_ascii c (by
        simp only [simpleStr, List.all_eq_true] at hs
        exact hs c h2)
    · simp only [List.mem_singleton] at h2
      subst h2
      decide

/-- The serialized form of a rendered integer is ASCII. -/
theorem intToChars_ascii (n : Int) : ∀ c ∈ intToChars n, c.toNat < 128 := by
  intro c hc
  unfold intToChars at hc
  split_ifs at hc
  · rcases List.mem_cons.mp hc with rfl | h
    · decide
    · exact ((natToChars_spec n.natAbs).1 c h).2
  · exact ((natToChars_spec n.natAbs).1 c hc).2

/-- The serialized form of a simple scalar is ASCII. -/
theorem dumpVal_ascii (v : JVal) (hv : simpleVal v = true) :
    ∀ c ∈ dumpVal v, c.toNat < 128 := by
  cases v with
  | jstr s => exact dumpStr_ascii s hv
  | jint n => exact intToChars_ascii n

/-- The dump of a simple claim set is an ASCII string. -/
theorem jsonDumps_ascii (ms : ClaimSet) (hsimp : simpleClaims ms = true) :
    ∀ c ∈ jsonDumps ms, c.toNat < 128 := by
  intro c hc
  rcases List.mem_cons.mp hc with rfl | h
  · decide
  · rcases List.mem_append.mp h with h2 | h2
    · rcases joinComma_mem _ c h2 with ⟨l, hl, hcl⟩ | h3 | h3
      · obtain ⟨kv, hkv, rfl⟩ := List.mem_map.mp hl
        have hkvs : simpleStr kv.1 = true ∧ simpleVal kv.2 = true := by
          simp only [simpleClaims, List.all_eq_true] at hsimp
          have := hsimp kv hkv
          simpa [Bool.and_eq_true] using this
        rcases List.mem_append.mp hcl with h4 | h4
        · exact dumpStr_ascii kv.1 hkvs.1 c h4
        · rcases List.mem_cons.mp h4 with rfl | h5
          · decide
          · rcases List.mem_cons.mp h5 with rfl | h6
            · decide
            · exact dumpVal_ascii kv.2 hkvs.2 c h6
      · subst h3; decide
      · subst h3; decide
    · simp only [List.mem_singleton] at h2
      subst h2
      decide

/-! ### Token-level round trip -/

/-- Big-endian byte serialization yields bytes. -/
theorem natToBytesBE_lt : ∀ (k n : Nat), ∀ b ∈ natToBytesBE k n, b < 256 := by
  intro k
  induction k with
  | zero => intro n b hb; cases hb
  | succ k ih =>
    intro n b hb
    rcases List.mem_append.mp hb with h | h
    · exact ih (n / 256) b h
    · simp only [List.mem_singleton] at h
      subst h
      exact Nat.mod_lt _ (by norm_num)

/-- SHA-256 digests consist of bytes. -/
theorem sha256_bytes (msg : List Nat) : ∀ b ∈ sha256 msg, b < 256 := by
  intro b hb
  obtain ⟨w, _, hw⟩ := List.mem_flatMap.mp hb
  exact natToBytesBE_lt 4 w b hw

/-- HMAC digests consist of bytes. -/
theorem hmac_bytes (key msg : List Nat) : ∀ b ∈ hmacSha256 key msg, b < 256 :=
  sha256_bytes _

/-- Encoded segments are ASCII. -/
theorem b64Encode_ascii (bs : List Nat) (hb : ∀ b ∈ bs, b < 256) :
    ∀ c ∈ b64Encode bs, c.toNat < 128 := by
  intro c hc
  obtain ⟨n, hn, rfl⟩ := b64Encode_mem bs hb c hc
  exact b64Char_lt128 n hn

/-- Encoded segments contain no dot. -/
theorem b64Encode_no_dot (bs : List Nat) (hb : ∀ b ∈ bs, b < 256) :
    ∀ c ∈ b64Encode bs, ¬ c = '.' := by
  intro c hc
  obtain ⟨n, hn, rfl⟩ := b64Encode_mem bs hb c hc
  exact b64Char_ne_dot n hn

/-- The bytes of the utf-8 encoding of a dumped simple claim set. -/
theorem utf8_dumps_bytes (ms : ClaimSet) (hsimp : simpleClaims ms = true) :
    ∀ b ∈ utf8Encode (jsonDumps ms), b < 256 := by
  rw [utf8Encode_ascii _ (jsonDumps_ascii ms hsimp)]
  intro b hb
  obtain ⟨c, hc, rfl⟩ := List.mem_map.mp hb
  exact lt_trans (jsonDumps_ascii ms hsimp c hc) (by norm_num)

/-- Decoding a generated token returns exactly the generated claim set,
for every secret, customer id, name, and issuing time: the splitter
recovers the three segments, the padded payload segment base64-decodes and
JSON-parses back to the claim set, and the result is returned whatever the
outcome of the signature comparison. -/
theorem decodeJwt_generateJwt (customer_id : List Char) (customer_name : Option (List Char))
    (secret : List Char) (now : Nat)
    (hcid : simpleStr customer_id = true)
    (hname : simpleStr (pyOrStr customer_name customer_id) = true) :
    decodeJwt secret (generateJwt customer_id customer_name secret now) =
      some (Json.jobj (genPayload customer_id customer_name now)) := by
  have hps : simpleClaims (genPayload customer_id customer_name now) = true := by
    refine List.all_eq_true.mpr ?_
    intro kv hkv
    simp only [genPayload, List.mem_cons, List.not_mem_nil, or_false] at hkv
    rcases hkv with rfl | rfl | rfl | rfl | rfl | rfl <;>
      simp [simpleVal, hcid, hname] <;> decide
  have hkeys : ((genPayload customer_id customer_name now).map Prod.fst).Nodup := by
    show ([str "customer_id", str "customer_name", str "sub", str "iat", str "exp",
      str "iss"]).Nodup
    decide
  have hheader : simpleClaims [(str "alg", JVal.jstr (str "HS256")),
      (str "typ", JVal.jstr (str "JWT"))] = true := by decide
  have hpbytes : ∀ b ∈ utf8Encode (jsonDumps (genPayload customer_id customer_name now)),
      b < 256 := utf8_dumps_bytes _ hps
  have hhbytes : ∀ b ∈ utf8Encode (jsonDumps [(str "alg", JVal.jstr (str "HS256")),
      (str "typ", JVal.jstr (str "JWT"))]), b < 256 := utf8_dumps_bytes _ hheader
  have hsplit : pySplit (generateJwt customer_id customer_name secret now) '.' =
      [b64Encode (utf8Encode (jsonDumps [(str "alg", JVal.jstr (str "HS256")),
        (str "typ", JVal.jstr (str "JWT"))])),
       b64Encode (utf8Encode (jsonDumps (genPayload customer_id customer_name now))),
       b64Encode (hmacSha256 (utf8Encode secret)
         (utf8Encode (b64Encode (utf8Encode (jsonDumps [(str "alg", JVal.jstr (str "HS256")),
           (str "typ", JVal.jstr (str "JWT"))])) ++ '.' ::
           b64Encode (utf8Encode (jsonDumps (genPayload customer_id customer_name now))))))] := by
    show pySplit (b64Encode (utf8Encode (jsonDumps [(str "alg", JVal.jstr (str "HS256")),
        (str "typ", JVal.jstr (str "JWT"))])) ++ '.' ::
      (b64Encode (utf8Encode (jsonDumps (genPayload customer_id customer_name now))) ++ '.' ::
        b64Encode (hmacSha256 (utf8Encode secret) _))) '.' = _
    rw [pySplit_append _ _ '.' (b64Encode_no_dot _ hhbytes),
        pySplit_append _ _ '.' (b64Encode_no_dot _ hpbytes),
        pySplit_no_sep _ '.' (b64Encode_no_dot _ (hmac_bytes _ _))]
  unfold decodeJwt decodeJwtV
  rw [hsplit]
  simp only [b64Decode_encode_pad _ hpbytes,
    utf8Decode_encode _ (jsonDumps_ascii _ hps),
    parseJson_dumps _ hps hkeys]
  rw [if_pos (List.all_eq_true.mpr (fun c hc =>
    decide_eq_true (b64Encode_ascii _ (hmac_bytes _ _) c hc)))]
  rfl

/-- A resolve decision is either the deny response or an authorized
response carrying a context. -/
theorem resolveDecision_shape (p : ClaimSet) :
    resolveDecision p = denyResponse ∨ ∃ ctx, resolveDecision p = ⟨true, some ctx⟩ := by
  unfold resolveDecision
  cases resolvedCustomerId p with
  | none => exact Or.inl rfl
  | some v =>
    by_cases h : jvalTruthy v = true
    · exact Or.inr ⟨⟨v, (resolvedCustomerName p).getD v, jsonDumps p⟩, by simp [h]⟩
    · simp only [Bool.not_eq_true] at h
      exact Or.inl (by simp [h])

/-- The authorizer's handler returns either the deny response or an
authorized response carrying a context, on every input. -/
theorem lambdaHandler_shape (jwt_secret : List Char) (headers : Headers) :
    lambdaHandler jwt_secret headers = denyResponse ∨
    ∃ ctx, lambdaHandler jwt_secret headers = ⟨true, some ctx⟩ := by
  unfold lambdaHandler
  dsimp only
  split
  · exact Or.inl rfl
  · split
    · exact Or.inl rfl
    · split
      · exact Or.inl rfl
      · split
        · split
          · apply resolveDecision_shape
          · exact Or.inl rfl
        · exact Or.inl rfl

/-- A string-valued key holds either nothing or some string. -/
theorem stringValued_cases (p : ClaimSet) (k : List Char)
    (h : stringValuedAt p k = true) :
    pyGet p k = none ∨ ∃ s, pyGet p k = some (JVal.jstr s) := by
  rcases hg : pyGet p k with _ | v
  · exact Or.inl rfl
  · rcases v with s | n
    · exact Or.inr ⟨s, rfl⟩
    · simp [stringValuedAt, hg] at h

/-- The authorizer's or-chain over the identifier keys agrees with the
spec's first-non-empty-string rule when those keys hold strings. -/
theorem resolvedId_vs_spec (p : ClaimSet)
    (h1 : stringValuedAt p (str "customer_id") = true)
    (h2 : stringValuedAt p (str "tenant_id") = true)
    (h3 : stringValuedAt p (str "sub") = true) :
    (firstNonEmptyStr p idKeys = none → truthyOpt (resolvedCustomerId p) = false) ∧
    (∀ s, firstNonEmptyStr p idKeys = some s →
      s ≠ [] ∧ resolvedCustomerId p = some (JVal.jstr s)) := by
  rcases stringValued_cases p _ h1 with hg1 | ⟨s1, hg1⟩ <;>
  rcases stringValued_cases p _ h2 with hg2 | ⟨s2, hg2⟩ <;>
  rcases stringValued_cases p _ h3 with hg3 | ⟨s3, hg3⟩ <;>
  simp_all [firstNonEmptyStr, idKeys, resolvedCustomerId, pyOrO, truthyOpt, jvalTruthy] <;>
  split_ifs <;>
  simp_all

/-- The authorizer's or-chain over the display-name keys agrees with the
spec's rule, falling back to the already-resolved tenant identifier. -/
theorem resolvedName_vs_spec (p : ClaimSet)
    (h4 : stringValuedAt p (str "customer_name") = true)
    (h5 : stringValuedAt p (str "name") = true)
    (s : List Char) (hcid : resolvedCustomerId p = some (JVal.jstr s)) :
    (firstNonEmptyStr p nameKeys = none → resolvedCustomerName p = some (JVal.jstr s)) ∧
    (∀ t, firstNonEmptyStr p nameKeys = some t →
      resolvedCustomerName p = some (JVal.jstr t)) := by
  rcases stringValued_cases p _ h4 with hg4 | ⟨s4, hg4⟩ <;>
  rcases stringValued_cases p _ h5 with hg5 | ⟨s5, hg5⟩ <;>
  simp_all [firstNonEmptyStr, nameKeys, resolvedCustomerName, pyOrO, jvalTruthy] <;>
  (try split_ifs) <;>
  simp_all

/-! ## Claim theorems -/

/-- C1.  The round-trip claim fails on the code: decoding the token
produced by `generate_jwt('customer1')` with the same (default) secret does
return a claim set semantically equal to the encoded one, but the
signature comparison inside `decode_jwt` reports a mismatch (the `false`
in the first conjunct), because the decoder recomputes the HMAC over the
*padded* payload segment (the code mutates `payload_b64` before building
the message) rather than exactly as in Encode over the first two token
segments — the second conjunct shows the token's signature segment is
precisely the HMAC over the unpadded first two segments, which is what
the claim says the decoder recomputes. -/
theorem C1_signature_recompute_bug :
    decodeJwtV defaultSecret (generateJwt (str "customer1") none defaultSecret 1700000000) =
      some (Json.jobj (genPayload (str "customer1") none 1700000000), false) ∧
    (pySplit (generateJwt (str "customer1") none defaultSecret 1700000000) '.').getD 2 [] =
      b64Encode (hmacSha256 (utf8Encode defaultSecret) (utf8Encode
        ((pySplit (generateJwt (str "customer1") none defaultSecret 1700000000) '.').getD 0 [] ++
          '.' ::
          (pySplit (generateJwt (str "customer1") none defaultSecret 1700000000) '.').getD 1
            []))) :=
  ⟨by decide, by decide⟩

/-- C2.  Verification is advisory: whenever the three segments decode but
the signature comparison fails, `decode_jwt` still returns the decoded
payload, and the resolution step still authorizes whenever the identifier
or-chain yields a truthy value. -/
theorem C2_advisory_verification :
    ∀ (jwt_secret token : List Char) (payload : Json),
      decodeJwtV jwt_secret token = some (payload, false) →
      decodeJwt jwt_secret token = some payload ∧
      (∀ (m : ClaimSet) (v : JVal), payload = Json.jobj m →
        resolvedCustomerId m = some v → jvalTruthy v = true →
        (resolveDecision m).isAuthorized = true) := by
  intro s t p h
  constructor
  · unfold decodeJwt
    rw [h]
    rfl
  · intro m v _ hv htr
    unfold resolveDecision
    rw [hv]
    simp [htr]

/-- C2 witness: a token with header `{}`, payload `{"sub": "s1"}` and the
bogus signature segment `x` decodes with a signature mismatch, yet the
payload is returned and the decision is authorized. -/
theorem C2_witness :
    decodeJwt defaultSecret (str "e30.eyJzdWIiOiAiczEifQ.x") =
      some (Json.jobj [(str "sub", JVal.jstr (str "s1"))]) ∧
    (resolveDecision [(str "sub", JVal.jstr (str "s1"))]).isAuthorized = true := by
  have h := C2_advisory_verification defaultSecret (str "e30.eyJzdWIiOiAiczEifQ.x")
    (Json.jobj [(str "sub", JVal.jstr (str "s1"))]) (by decide)
  exact ⟨h.1, h.2 _ (JVal.jstr (str "s1")) rfl (by decide) (by decide)⟩

/-- C3 counterexample: the string `.e30.` has exactly two dots with empty
header and signature segments, yet `decode_jwt` returns a claim set (the
empty object decoded from `e30`), refuting the claim that every segment
must be non-empty. -/
theorem C3_counterexample :
    pySplit (str ".e30.") '.' = [[], str "e30", []] ∧
    decodeJwt defaultSecret (str ".e30.") = some (Json.jobj []) := by
  exact ⟨by decide, by decide⟩

/-- C3 amended: `decode_jwt` returns no claim set unless splitting on `.`
yields exactly three segments, but the segments may be empty — an empty
header or signature segment is accepted (witness `.e30.`), while an empty
payload segment still fails because it yields no JSON value (witness
`a..`). -/
theorem C3_split_check :
    (∀ (jwt_secret token : List Char), (pySplit token '.').length ≠ 3 →
      decodeJwtV jwt_secret token = none) ∧
    decodeJwt defaultSecret (str ".e30.") = some (Json.jobj []) ∧
    decodeJwtV defaultSecret (str "a..") = none := by
  refine ⟨?_, by decide, by decide⟩
  intro s t h
  rcases hs : pySplit t '.' with _ | ⟨a, _ | ⟨b, _ | ⟨c, _ | ⟨d, rest⟩⟩⟩⟩ <;>
    simp [hs] at h ⊢ <;>
    simp [decodeJwtV, hs]

/-- C3 witness for the amended split condition, at a dot-free input. -/
theorem C3_split_check_witness :
    decodeJwtV defaultSecret (str "abc") = none :=
  C3_split_check.1 defaultSecret (str "abc") (by decide)

/-- C4.  Resolution precedence: when the five claim-resolution keys hold
strings, the decision is unauthorized exactly when no identifier key holds
a non-empty string, and otherwise the context carries the first non-empty
identifier among customer_id, tenant_id, sub and the first non-empty
display name among customer_name, name, falling back to the identifier. -/
theorem C4_resolution_precedence :
    ∀ p : ClaimSet, (∀ k ∈ idKeys ++ nameKeys, stringValuedAt p k = true) →
      (firstNonEmptyStr p idKeys = none → resolveDecision p = denyResponse) ∧
      (∀ s, firstNonEmptyStr p idKeys = some s →
        resolveDecision p = ⟨true, some ⟨JVal.jstr s,
          JVal.jstr ((firstNonEmptyStr p nameKeys).getD s), jsonDumps p⟩⟩) := by
  intro p hall
  have h1 := hall (str "customer_id") (by simp [idKeys, nameKeys])
  have h2 := hall (str "tenant_id") (by simp [idKeys, nameKeys])
  have h3 := hall (str "sub") (by simp [idKeys, nameKeys])
  have h4 := hall (str "customer_name") (by simp [idKeys, nameKeys])
  have h5 := hall (str "name") (by simp [idKeys, nameKeys])
  have hid := resolvedId_vs_spec p h1 h2 h3
  constructor
  · intro hn
    have ht := hid.1 hn
    unfold resolveDecision
    rcases hc : resolvedCustomerId p with _ | v
    · rfl
    · rw [hc] at ht
      simp [truthyOpt] at ht
      simp [ht]
  · intro s hs
    obtain ⟨hse, hc⟩ := hid.2 s hs
    have hname := resolvedName_vs_spec p h4 h5 s hc
    rcases hnk : firstNonEmptyStr p nameKeys with _ | t
    · have he := hname.1 hnk
      simp [resolveDecision, hc, jvalTruthy, hse, he]
    · have he := hname.2 t hnk
      simp [resolveDecision, hc, jvalTruthy, hse, he]

/-- C4 witness, at the spec's own example `{tenant_id: "x", sub: "y"}`:
the resolved identifier is `x` and, with no name keys present, the display
name falls back to `x`. -/
theorem C4_witness :
    resolveDecision [(str "tenant_id", JVal.jstr (str "x")), (str "sub", JVal.jstr (str "y"))] =
      ⟨true, some ⟨JVal.jstr (str "x"),
        JVal.jstr ((firstNonEmptyStr
          [(str "tenant_id", JVal.jstr (str "x")), (str "sub", JVal.jstr (str "y"))]
          nameKeys).getD (str "x")),
        jsonDumps [(str "tenant_id", JVal.jstr (str "x")), (str "sub", JVal.jstr (str "y"))]⟩⟩ :=
  (C4_resolution_precedence
    [(str "tenant_id", JVal.jstr (str "x")), (str "sub", JVal.jstr (str "y"))]
    (by decide)).2 (str "x") (by decide)

/-- C5 counterexample: the code is not a case-insensitive prefix strip.
On `Bearer abcBearer def` it also removes the interior occurrence, and on
`BEARER x` it strips nothing, differing from the claimed behavior
(`stripBearerSpec`) at both inputs. -/
theorem C5_counterexample :
    extractedToken (str "Bearer abcBearer def") = str "abcdef" ∧
    stripBearerSpec (str "Bearer abcBearer def") = str "abcBearer def" ∧
    extractedToken (str "BEARER x") = str "BEARER x" ∧
    stripBearerSpec (str "BEARER x") = str "x" := by
  exact ⟨by decide, by decide, by decide, by decide⟩

/-- C5 amended: the credential passed to `decode_jwt` is the header value
with every occurrence of the exact substrings `Bearer ` and then `bearer `
removed; in particular a leading `Bearer ` is removed, interior
occurrences are removed too, and other casings such as `BEARER ` are kept. -/
theorem C5_replace_all :
    (∀ t : List Char, extractedToken (str "Bearer " ++ t) = extractedToken t) ∧
    extractedToken (str "Bearer abcBearer def") = str "abcdef" ∧
    extractedToken (str "bearer tok1") = str "tok1" ∧
    extractedToken (str "BEARER x") = str "BEARER x" := by
  refine ⟨?_, by decide, by decide, by decide⟩
  intro t
  unfold extractedToken
  have h1 := pyReplace_head_cancel (str "Bearer ") t [] (by decide)
  rw [show (str "Bearer " ++ t) = (str "Bearer ") ++ t from rfl, h1]
  rfl

/-- C6.  No expiry enforcement: the decode outcome is a pure function of
the token and secret (identical at any two invocation times), and a token
generated at any time `now` — hence carrying any `exp = now + 3600`
whatsoever, arbitrarily far in the past or future — decodes to its claim
set (including that `exp`); no failure is ever caused by an expired `exp`. -/
theorem C6_no_expiry :
    (∀ (now now' : Nat) (jwt_secret token : List Char),
      decodeJwtAt now jwt_secret token = decodeJwtAt now' jwt_secret token) ∧
    (∀ now : Nat,
      decodeJwt defaultSecret (generateJwt (str "customer1") none defaultSecret now) =
        some (Json.jobj (genPayload (str "customer1") none now))) :=
  ⟨fun _ _ _ _ => rfl,
   fun now => decodeJwt_generateJwt (str "customer1") none defaultSecret now
     (by decide) (by decide)⟩

/-- C7.  Deny responses carry no context: whenever the authorizer's answer
has `isAuthorized = false`, its context is empty, on every input. -/
theorem C7_unauthorized_empty_context :
    ∀ (jwt_secret : List Char) (headers : Headers),
      (lambdaHandler jwt_secret headers).isAuthorized = false →
      (lambdaHandler jwt_secret headers).context = none := by
  intro s h hf
  rcases lambdaHandler_shape s h with he | ⟨ctx, he⟩
  · rw [he]
    rfl
  · rw [he] at hf
    simp at hf

/-- C7 witness at the empty event (no authorization header): the decision
is denied and the context is empty. -/
theorem C7_witness :
    (lambdaHandler defaultSecret []).isAuthorized = false ∧
    (lambdaHandler defaultSecret []).context = none :=
  ⟨by decide, C7_unauthorized_empty_context defaultSecret [] (by decide)⟩

/-- C8.  Routing determinism: the routing descriptor is a pure function of
the tenant identifier with the claimed shape, `RouteFor("acme")` is the
claimed pair, and the backend handler's routing fields are exactly
`routeFor` of its resolved customer id. -/
theorem C8_routing_determinism :
    (∀ t : List Char,
      (routeFor t).targetNamespace = str "cust-" ++ t ∧
      (routeFor t).targetService =
        t ++ str "-service." ++ (str "cust-" ++ t) ++ str ".svc.cluster.local") ∧
    routeFor (str "acme") = ⟨str "cust-acme", str "acme-service.cust-acme.svc.cluster.local"⟩ ∧
    (∀ e : BackendEvent,
      (backendHandler e).body.routing.targetNamespace =
        (routeFor ((pyGet e.headers (str "x-customer-id")).getD (str "unknown"))).targetNamespace ∧
      (backendHandler e).body.routing.targetService =
        (routeFor ((pyGet e.headers (str "x-customer-id")).getD (str "unknown"))).targetService) := by
  refine ⟨?_, by decide, fun e => ⟨rfl, rfl⟩⟩
  intro t
  constructor
  · rfl
  · show t ++ str "-service.cust-" ++ t ++ str ".svc.cluster.local" = _
    have hA : str "-service.cust-" = str "-service." ++ str "cust-" := rfl
    rw [hA]
    simp [List.append_assoc]

/-- C9.  Total recovery: on every input the authorizer returns either the
single deny response (one fixed value, carrying no failure detail) or an
authorized response with a context; the model is a total function, so no
exception escapes. -/
theorem C9_total_recovery :
    ∀ (jwt_secret : List Char) (headers : Headers),
      lambdaHandler jwt_secret headers = denyResponse ∨
      ∃ ctx, lambdaHandler jwt_secret headers = ⟨true, some ctx⟩ :=
  lambdaHandler_shape

/-- C10.  The backend never rejects: every response has status 200 and
echoes the inbound `x-customer-id` value (default `unknown`) in its
X-Customer-ID header and routing descriptor; with no headers at all the
routing descriptor uses the `unknown` placeholders. -/
theorem C10_backend_total :
    (∀ e : BackendEvent,
      (backendHandler e).statusCode = 200 ∧
      (backendHandler e).headers.xCustomerId =
        (pyGet e.headers (str "x-customer-id")).getD (str "unknown") ∧
      (backendHandler e).body.routing.customerId =
        (pyGet e.headers (str "x-customer-id")).getD (str "unknown")) ∧
    (backendHandler ⟨[], []⟩).headers.xCustomerId = str "unknown" ∧
    (backendHandler ⟨[], []⟩).body.routing.targetNamespace = str "cust-unknown" ∧
    (backendHandler ⟨[], []⟩).body.routing.targetService =
      str "unknown-service.cust-unknown.svc.cluster.local" := by
  exact ⟨fun e => ⟨rfl, rfl, rfl⟩, by decide, by decide, by decide⟩

end XCid
